import Mathlib

/-!
Verification development for the `unrealircd-s2s-client` protocol engine.

The definitions below are a shallow embedding of the TypeScript source
(`ServerToServerClient` and its helpers).  JavaScript objects used as
string-keyed maps are modelled as insertion-ordered association lists
(`jsGet` / `jsSet` / `jsDelete` reproduce property read, write and
`delete`); objects used as mode-flag sets (`{ [mode: string]: boolean }`)
are modelled as duplicate-free, insertion-ordered lists of characters
(`objInsert` / `objDelete`), so that `Object.keys(...).join("")`
corresponds to `String.mk` of that list.  JavaScript string operations
are modelled on `String.data`: `split("-")` is `dashSplit`,
`split("\r\n")` is `crlfSplit`, `slice(1)` is `jsSlice1`,
`replace(p, "")` for a one-character pattern `p` is `removeFirstL`.
-/

namespace S2S

/-- Property read on a JS object used as a map: first entry with the key. -/
def jsGet {α : Type} : List (String × α) → String → Option α
  | [], _ => none
  | (k', v') :: rest, k => if k' = k then some v' else jsGet rest k

/-- Property write on a JS object used as a map: replace in place if the
key is present (keeping insertion order), otherwise append. -/
def jsSet {α : Type} : List (String × α) → String → α → List (String × α)
  | [], k, v => [(k, v)]
  | (k', v') :: rest, k, v =>
    if k' = k then (k, v) :: rest else (k', v') :: jsSet rest k v

/-- The JS `delete` operator on a string-keyed object. -/
def jsDelete {α : Type} : List (String × α) → String → List (String × α)
  | [], _ => []
  | (k', v') :: rest, k =>
    if k' = k then jsDelete rest k else (k', v') :: jsDelete rest k

theorem jsGet_jsSet_self {α : Type} (m : List (String × α)) (k : String) (v : α) :
    jsGet (jsSet m k v) k = some v := by
  induction m with
  | nil => simp [jsGet, jsSet]
  | cons hd tl ih =>
    obtain ⟨k', v'⟩ := hd
    by_cases h : k' = k <;> simp [jsGet, jsSet, h, ih]

theorem jsGet_jsSet_ne {α : Type} (m : List (String × α)) (k k' : String) (v : α)
    (h : k' ≠ k) : jsGet (jsSet m k v) k' = jsGet m k' := by
  have hk : ¬(k = k') := fun hh => h hh.symm
  induction m with
  | nil => simp only [jsSet, jsGet, if_neg hk]
  | cons hd tl ih =>
    obtain ⟨k0, v0⟩ := hd
    simp only [jsSet]
    by_cases h0 : k0 = k
    · rw [if_pos h0]
      subst h0
      simp only [jsGet, if_neg hk]
    · rw [if_neg h0]
      simp only [jsGet, ih]

theorem isSome_jsGet_jsSet {α : Type} (m : List (String × α)) (k k' : String) (v : α)
    (h : (jsGet m k').isSome) : (jsGet (jsSet m k v) k').isSome := by
  by_cases hk : k' = k
  · subst hk; simp [jsGet_jsSet_self]
  · rwa [jsGet_jsSet_ne m k k' v hk]

/-- Key insertion on a JS object used as a set of mode flags
(`newModes[mode] = true`): an existing key keeps its position, a new key
is appended, matching the enumeration order of `Object.keys`. -/
def objInsert (ks : List Char) (c : Char) : List Char :=
  if c ∈ ks then ks else ks ++ [c]

/-- Key removal on a JS object used as a set of mode flags
(`delete newModes[mode]`). -/
def objDelete (ks : List Char) (c : Char) : List Char :=
  ks.filter (fun a => a ≠ c)

theorem mem_objInsert (ks : List Char) (c a : Char) :
    a ∈ objInsert ks c ↔ a ∈ ks ∨ a = c := by
  by_cases h : c ∈ ks
  · simp only [objInsert, if_pos h]
    constructor
    · exact Or.inl
    · rintro (ha | rfl) <;> [exact ha; exact h]
  · simp [objInsert, if_neg h]

theorem nodup_objInsert (ks : List Char) (c : Char) (h : ks.Nodup) :
    (objInsert ks c).Nodup := by
  by_cases hm : c ∈ ks
  · simpa [objInsert, if_pos hm]
  · simp only [objInsert, if_neg hm]
    rw [List.nodup_append]
    refine ⟨h, List.nodup_singleton c, ?_⟩
    intro a ha hac
    rw [List.mem_singleton] at hac
    exact hm (hac ▸ ha)

/-- The body of the source's flag-collection loops
(`for (let mode of s) { if (mode == "+") continue; newModes[mode] = true; }`). -/
def addFlagsL (ks : List Char) : List Char → List Char
  | [] => ks
  | c :: rest => if c = '+' then addFlagsL ks rest else addFlagsL (objInsert ks c) rest

theorem addFlagsL_nil (ks : List Char) : addFlagsL ks [] = ks := rfl

theorem addFlagsL_cons_plus (ks rest : List Char) :
    addFlagsL ks ('+' :: rest) = addFlagsL ks rest := by
  simp [addFlagsL]

theorem addFlagsL_cons_ne (ks : List Char) (c : Char) (rest : List Char) (h : c ≠ '+') :
    addFlagsL ks (c :: rest) = addFlagsL (objInsert ks c) rest := by
  simp [addFlagsL, h]

theorem mem_addFlagsL (cs : List Char) :
    ∀ (ks : List Char) (a : Char), a ∈ addFlagsL ks cs ↔ a ∈ ks ∨ (a ∈ cs ∧ a ≠ '+') := by
  induction cs with
  | nil => simp [addFlagsL]
  | cons c rest ih =>
    intro ks a
    by_cases hc : c = '+'
    · subst hc
      rw [addFlagsL_cons_plus, ih]
      constructor
      · rintro (h | h)
        · exact Or.inl h
        · exact Or.inr ⟨List.mem_cons_of_mem _ h.1, h.2⟩
      · rintro (h | ⟨hmem, hne⟩)
        · exact Or.inl h
        · rcases List.mem_cons.mp hmem with rfl | h
          · exact absurd rfl hne
          · exact Or.inr ⟨h, hne⟩
    · rw [addFlagsL_cons_ne ks c rest hc, ih]
      simp only [mem_objInsert]
      constructor
      · rintro ((h | rfl) | h)
        · exact Or.inl h
        · exact Or.inr ⟨List.mem_cons_self _ _, hc⟩
        · exact Or.inr ⟨List.mem_cons_of_mem _ h.1, h.2⟩
      · rintro (h | ⟨hmem, hne⟩)
        · exact Or.inl (Or.inl h)
        · rcases List.mem_cons.mp hmem with rfl | h
          · exact Or.inl (Or.inr rfl)
          · exact Or.inr ⟨h, hne⟩

theorem nodup_addFlagsL (cs : List Char) :
    ∀ ks : List Char, ks.Nodup → (addFlagsL ks cs).Nodup := by
  induction cs with
  | nil => intro ks h; simpa [addFlagsL]
  | cons c rest ih =>
    intro ks h
    by_cases hc : c = '+'
    · subst hc; rw [addFlagsL_cons_plus]; exact ih ks h
    · rw [addFlagsL_cons_ne ks c rest hc]
      exact ih _ (nodup_objInsert ks c h)

theorem addFlagsL_no_plus (cs : List Char) (ks : List Char)
    (h : ∀ a ∈ ks, a ≠ '+') : ∀ a ∈ addFlagsL ks cs, a ≠ '+' := by
  intro a ha
  rcases (mem_addFlagsL cs ks a).mp ha with h1 | h1
  · exact h a h1
  · exact h1.2

/-- JS `s.split("-")` (string separator, greedy left-to-right scan). -/
def dashSplit : List Char → List (List Char)
  | [] => [[]]
  | c :: rest =>
    if c = '-' then [] :: dashSplit rest
    else
      match dashSplit rest with
      | [] => [[c]]
      | l :: ls => (c :: l) :: ls

/-- JS `s.split("\r\n")` (string separator, greedy left-to-right scan). -/
def crlfSplit : List Char → List (List Char)
  | [] => [[]]
  | '\r' :: '\n' :: rest => [] :: crlfSplit rest
  | c :: rest =>
    match crlfSplit rest with
    | [] => [[c]]
    | l :: ls => (c :: l) :: ls

theorem dashSplit_ne_nil (l : List Char) : dashSplit l ≠ [] := by
  cases l with
  | nil => simp [dashSplit]
  | cons c rest =>
    by_cases h : c = '-'
    · simp [dashSplit, h]
    · simp only [dashSplit, if_neg h]
      cases dashSplit rest <;> simp

/-- JS `s.slice(1)`. -/
def jsSlice1 (s : String) : String := String.mk (s.data.drop 1)

/-- JS `s.startsWith(c)` for a one-character pattern. -/
def jsStartsWith (s : String) (c : Char) : Bool := s.data.head? == some c

/-- JS `s.replace(p, "")` for a one-character pattern `p`: removes the
first occurrence only. -/
def removeFirstL : List Char → Char → List Char
  | [], _ => []
  | x :: xs, c => if x = c then xs else x :: removeFirstL xs c

theorem removeFirstL_append_self (l : List Char) (c : Char) (h : c ∉ l) :
    removeFirstL (l ++ [c]) c = l := by
  induction l with
  | nil => simp [removeFirstL]
  | cons x xs ih =>
    have hx : x ≠ c := fun hxc => h (hxc ▸ List.mem_cons_self _ _)
    simp only [List.cons_append, removeFirstL, if_neg hx, List.append_eq]
    rw [ih (fun hc => h (List.mem_cons_of_mem _ hc))]

/-- Member of a channel (source type `Member`).  The field `pfx` models the
source's `prefix` field: zero or more rank symbols, in grant order. -/
structure Member where
  uid : String
  pfx : String
  deriving DecidableEq, Repr

/-- User (source type `User`).  The optional source fields `local`, `away`
and `moddata` are carried as `Option` fields with `none` defaults. -/
structure User where
  nickname : String
  hopcount : Int
  timestamp : Int
  username : String
  hostname : String
  uid : String
  servicestamp : String
  usermodes : String
  virtualhost : String
  cloakedhost : String
  ip : String
  gecos : String
  localFlag : Option Bool := none
  away : Option Bool := none
  moddata : Option (List (String × String)) := none
  memberships : List (String × Member) := []
  deriving DecidableEq, Repr

/-- Channel (source type `Channel`).  `users` is keyed by nickname. -/
structure Channel where
  name : String
  timestamp : Int
  modes : String
  users : List (String × Member)
  bans : List String
  excepts : List String
  inviteExcepts : List String
  deriving DecidableEq, Repr

/-- The mutable state of a `ServerToServerClient` that the modelled
operations touch: the four stores, the outbound write queue and the
configured local SID.  In the source, `usersByNick` stores the very same
`User` object as `users`; the model keys it by UID instead, recording the
aliasing explicitly. -/
structure State where
  users : List (String × User)
  usersByNick : List (String × String)
  channels : List (String × Channel)
  writebuffer : List String
  sid : String
  deriving DecidableEq, Repr

/-- The source's `ModeToPrefix` table.  Every value in the source is a
one-character string, so the model returns the character; the table is
only consulted for the rank modes `vhoaq`. -/
def ModeToPrefix (m : Char) : Char :=
  if m = 'v' then '+'
  else if m = 'h' then '%'
  else if m = 'o' then '@'
  else if m = 'a' then '~'
  else if m = 'q' then '*'
  else ' '

/-- Character class `\w` of the source's member-token regex. -/
def isWordChar (c : Char) : Bool := c.isAlphanum || c = '_'

/-- Character class `[0-9A-Z]` of the source's member-token regex. -/
def isUidChar (c : Char) : Bool := c.isDigit || (c.isUpper && c.isAlpha)

/-- The member-token scan `i.match(/^([^\w]*)([0-9A-Z]{3,}$)/) || [i, "", i]`:
the greedy leading run of non-word characters is the rank-prefix string and
the rest must be three or more characters from `[0-9A-Z]`; on regex failure
the fallback yields an empty prefix and the whole token as the ID. -/
def memberMatch (i : String) : String × String :=
  let p := i.data.takeWhile (fun c => !isWordChar c)
  let rest := i.data.dropWhile (fun c => !isWordChar c)
  if 3 ≤ rest.length ∧ rest.all isUidChar then (String.mk p, String.mk rest)
  else ("", i)

/-- The double quote character, written via its code point. -/
def quotChar : Char := Char.ofNat 34

/-- The single quote character, written via its code point. -/
def apostChar : Char := Char.ofNat 39

/-- One iteration of the SJOIN token loop (`for (let i of sjoinbuffer)`):
skip empty tokens, tokens marked `&` / `"` / `'` are appended to the
ban / except / invite-exception lists, any other token is a member token;
its rank prefix is dropped when the burst is unsafe (`distrust`, the
source's `unsafe` flag), the member is installed in the channel's user map
under the user's nickname and in the user's membership map under the
channel name.  `none` models the crash on `this.users[uid]` being
`undefined`. -/
def sjoinStep (users : List (String × User)) (c : Channel) (name : String)
    (distrust : Bool) (t : String) : Option (List (String × User) × Channel) :=
  if t = "" then some (users, c)
  else if jsStartsWith t '&' then some (users, { c with bans := c.bans ++ [jsSlice1 t] })
  else if jsStartsWith t quotChar then some (users, { c with excepts := c.excepts ++ [jsSlice1 t] })
  else if jsStartsWith t apostChar then
    some (users, { c with inviteExcepts := c.inviteExcepts ++ [jsSlice1 t] })
  else
    let pm := memberMatch t
    let uid := pm.2
    match jsGet users uid with
    | none => none
    | some u =>
      let membership : Member := { uid := u.uid, pfx := if distrust then "" else pm.1 }
      some (jsSet users uid { u with memberships := jsSet u.memberships name membership },
            { c with users := jsSet c.users u.nickname membership })

/-- The SJOIN token loop over the whole burst buffer. -/
def sjoinTokens (users : List (String × User)) (c : Channel) (name : String)
    (distrust : Bool) : List String → Option (List (String × User) × Channel)
  | [] => some (users, c)
  | t :: rest =>
    match sjoinStep users c name distrust t with
    | none => none
    | some (users1, c1) => sjoinTokens users1 c1 name distrust rest

/-- The optional leading mode token of an SJOIN line:
`parts[partsConsumed].startsWith("+") ? consumePart() : ""`. -/
def effModes (tok : String) : String := if jsStartsWith tok '+' then tok else ""

/-- The dispatcher's SJOIN handler, over the parsed line: announced
timestamp, channel name, the token at the mode position, and the
whitespace-split trailing buffer.  Implements the timestamp conflict
resolution: equal timestamps take the union of announced and local flags,
an older announced timestamp replaces the local modes, a newer one keeps
local modes and marks the burst unsafe; then runs the token loop and
stores the channel. -/
def sjoinHandler (st : State) (ts : Int) (name tok : String) (toks : List String) :
    Option State :=
  let modes := effModes tok
  let channel : Channel :=
    match jsGet st.channels name with
    | some c => c
    | none =>
      { name := name, timestamp := ts, modes := modes, users := [],
        bans := [], excepts := [], inviteExcepts := [] }
  let resolved : Bool × Channel :=
    match jsGet st.channels name with
    | some incumbent =>
      if ts = incumbent.timestamp then
        (false, { channel with
                  modes := String.mk (addFlagsL (addFlagsL [] modes.data) incumbent.modes.data) })
      else if ts < incumbent.timestamp then (false, { channel with modes := modes })
      else (true, channel)
    | none => (false, channel)
  match sjoinTokens st.users resolved.2 name resolved.1 toks with
  | none => none
  | some (users', channel') =>
    some { st with users := users', channels := jsSet st.channels name channel' }

/-- Tokens of the burst buffer that are appended to a marker's list:
the tokens whose first character is the marker, with the marker stripped. -/
def markedToks (marker : Char) (toks : List String) : List String :=
  toks.filterMap (fun t => if jsStartsWith t marker then some (jsSlice1 t) else none)

/-- Classification of a burst token as a member token: non-empty and not
marked as a ban, except, or invite-exception entry. -/
def isMemberTok (t : String) : Bool :=
  t ≠ "" && !jsStartsWith t '&' && !jsStartsWith t quotChar && !jsStartsWith t apostChar

/-- The channel rank modes `v h o a q`. -/
def rankModes : List Char := ['v', 'h', 'o', 'a', 'q']

/-- The channel list modes `b e I`. -/
def listModes : List Char := ['b', 'e', 'I']

/-- The add-section loop of the MODE handler.  Each rank mode shifts one
argument (an empty-string argument is consumed but skipped, matching the
falsy `if (!arg) continue`) and appends the rank symbol to the named
member's `prefix`; each list mode shifts one argument and appends it to
the matching list; any other character is inserted into the flag set.
`none` models the crash on `channelObj.users[arg]` being `undefined`. -/
def modeAddLoop : Channel → List String → List Char → List Char →
    Option (Channel × List String × List Char)
  | c, args, nm, [] => some (c, args, nm)
  | c, args, nm, mode :: rest =>
    if mode = '+' then modeAddLoop c args nm rest
    else if rankModes.contains mode then
      match args with
      | [] => modeAddLoop c args nm rest
      | arg :: argsRest =>
        if arg = "" then modeAddLoop c argsRest nm rest
        else
          match jsGet c.users arg with
          | none => none
          | some mem =>
            let mem' := { mem with pfx := mem.pfx ++ String.mk [ModeToPrefix mode] }
            modeAddLoop { c with users := jsSet c.users arg mem' } argsRest nm rest
    else if listModes.contains mode then
      match args with
      | [] => modeAddLoop c args nm rest
      | arg :: argsRest =>
        if arg = "" then modeAddLoop c argsRest nm rest
        else
          let c' :=
            if mode = 'b' then { c with bans := c.bans ++ [arg] }
            else if mode = 'e' then { c with excepts := c.excepts ++ [arg] }
            else { c with inviteExcepts := c.inviteExcepts ++ [arg] }
          modeAddLoop c' argsRest nm rest
    else modeAddLoop c args (objInsert nm mode) rest

/-- The remove-section loop of the MODE handler.  Each rank mode shifts
one argument and removes the first occurrence of the rank symbol from the
named member's `prefix` (JS `replace(prefix, "")`); each list mode shifts
one argument and removes every list entry exactly equal to it (with no
argument left, `args.shift()` yields `undefined` and the filter removes
nothing); any other character is deleted from the flag set. -/
def modeRemoveLoop : Channel → List String → List Char → List Char →
    Option (Channel × List String × List Char)
  | c, args, nm, [] => some (c, args, nm)
  | c, args, nm, mode :: rest =>
    if mode = '+' then modeRemoveLoop c args nm rest
    else if rankModes.contains mode then
      match args with
      | [] => modeRemoveLoop c args nm rest
      | arg :: argsRest =>
        if arg = "" then modeRemoveLoop c argsRest nm rest
        else
          match jsGet c.users arg with
          | none => none
          | some mem =>
            let mem' := { mem with pfx := String.mk (removeFirstL mem.pfx.data (ModeToPrefix mode)) }
            modeRemoveLoop { c with users := jsSet c.users arg mem' } argsRest nm rest
    else if listModes.contains mode then
      match args with
      | [] => modeRemoveLoop c args nm rest
      | arg :: argsRest =>
        let c' :=
          if mode = 'b' then { c with bans := c.bans.filter (fun x => x ≠ arg) }
          else if mode = 'e' then { c with excepts := c.excepts.filter (fun x => x ≠ arg) }
          else { c with inviteExcepts := c.inviteExcepts.filter (fun x => x ≠ arg) }
        modeRemoveLoop c' argsRest nm rest
    else modeRemoveLoop c args (objDelete nm mode) rest

/-- The dispatcher's MODE handler over the parsed line: target channel,
mode token and positional arguments.  A three-character source is a SID,
in which case the trailing timestamp argument is popped; the flag set is
seeded with every non-`+` character of the mode token, the two loops run
over the sub-strings before and after the first `-`, and the channel's
mode string is re-serialized as `+` followed by the flag set.  `none`
models the crash when the target channel is not in the store. -/
def modeHandler (st : State) (src target modesTok : String) (args0 : List String) :
    Option State :=
  match jsGet st.channels target with
  | none => none
  | some channelObj =>
    let args := if src.length = 3 then args0.dropLast else args0
    let nm0 := addFlagsL [] modesTok.data
    let addModes := ((dashSplit modesTok.data).headD []).drop 1
    let removeModes := ((dashSplit modesTok.data).drop 1).headD []
    match modeAddLoop channelObj args nm0 addModes with
    | none => none
    | some (c1, args1, nm1) =>
      match modeRemoveLoop c1 args1 nm1 removeModes with
      | none => none
      | some (c2, _, nm2) =>
        let c3 := { c2 with modes := String.mk ('+' :: nm2) }
        some { st with channels := jsSet st.channels target c3 }

/-- The dispatcher's UID handler, given the user constructed from the
line's fields: index by UID and by nickname.  In the source `usersByNick`
receives the same object; the model records its UID. -/
def uidHandler (st : State) (user : User) : State :=
  { st with users := jsSet st.users user.uid user,
            usersByNick := jsSet st.usersByNick user.nickname user.uid }

/-- The dispatcher's NICK handler: delete the old nickname from
`usersByNick`, overwrite the user's nickname, re-index under the new
nickname.  The member maps of the user's channels are not touched.
`none` models the crash when the source UID is not in the store. -/
def nickHandler (st : State) (src newNick : String) : Option State :=
  match jsGet st.users src with
  | none => none
  | some u =>
    let byNick := jsDelete st.usersByNick u.nickname
    let u' := { u with nickname := newNick }
    some { st with users := jsSet st.users src u',
                   usersByNick := jsSet byNick newNick src }

/-- One `data` event of the framer (`_dataHandler`): append the chunk to
the carry-over buffer, split on CRLF; with more than one segment, a final
empty segment clears the buffer and the whole split (including that empty
segment) is handed to the line handler, otherwise the final segment is
popped into the buffer and the remaining segments are handed over.
Returns the new buffer and the delivered lines. -/
def dataHandler (buffer chunk : String) : String × List String :=
  let buf := buffer ++ chunk
  let lines := (crlfSplit buf.data).map String.mk
  if 1 < lines.length then
    if lines.getLast? = some "" then ("", lines)
    else ((lines.getLast?).getD "", lines.dropLast)
  else (buf, [])

/-- Feed a sequence of chunks through the framer, collecting every
delivered line in order, starting from an empty buffer. -/
def framerRun (chunks : List String) : String × List String :=
  chunks.foldl (fun acc chunk =>
    let r := dataHandler acc.1 chunk
    (r.1, acc.2 ++ r.2)) ("", [])

/-- One iteration of the `sjoinToChannel` member loop: throw if the
member's UID is not registered, throw if that user already has a
membership for the channel, otherwise append the member to the wire
buffer and install it in the channel's user map and the user's membership
map.  The first component carries the thrown message; on a throw the
accumulators keep the mutations performed so far. -/
def stcStep (users : List (String × User)) (c : Channel) (name buf : String)
    (m : Member) : Option String × List (String × User) × Channel × String :=
  match jsGet users m.uid with
  | none => (some ("User " ++ m.uid ++ " not registered"), users, c, buf)
  | some u =>
    if (jsGet u.memberships name).isSome then
      (some ("User " ++ m.uid ++ " is already in channel " ++ name), users, c, buf)
    else
      (none,
       jsSet users m.uid { u with memberships := jsSet u.memberships name m },
       { c with users := jsSet c.users u.nickname m },
       buf ++ m.pfx ++ m.uid ++ " ")

/-- The `members.forEach` loop of `sjoinToChannel`. -/
def stcLoop (users : List (String × User)) (c : Channel) (name buf : String) :
    List Member → Option String × List (String × User) × Channel × String
  | [] => (none, users, c, buf)
  | m :: rest =>
    match stcStep users c name buf m with
    | (some e, u1, c1, b1) => (some e, u1, c1, b1)
    | (none, u1, c1, b1) => stcLoop u1 c1 name b1 rest

/-- The initial wire buffer of `sjoinToChannel`
(`"SJOIN " + timestamp() + " " + name + " " + modes + " :"`); the wall
clock read is passed in as `now`. -/
def stcBuf (now : Int) (channel : Channel) : String :=
  "SJOIN " ++ toString now ++ " " ++ channel.name ++ " " ++ channel.modes ++ " :"

/-- Result of `sjoinToChannel`: the thrown message if any, the resulting
client state, and the final value of the caller's channel argument. -/
structure SjoinResult where
  err : Option String
  state : State
  chan : Channel
  deriving DecidableEq, Repr

/-- The public `sjoinToChannel(channel, ...members)` operation.  If the
channel name is absent from the store the argument object is inserted
first; in the source the store then aliases the argument, so every later
mutation of `channel.users` is visible in the store — the model writes the
final channel value back in that case.  On success the assembled SJOIN
line is enqueued via `write` (which prepends the local SID); on a throw
nothing is enqueued and the mutations made so far persist. -/
def sjoinToChannel (st : State) (now : Int) (channel : Channel)
    (members : List Member) : SjoinResult :=
  let inserted := (jsGet st.channels channel.name).isNone
  let buf := stcBuf now channel
  match stcLoop st.users channel channel.name buf members with
  | (some e, users', c', _) =>
    let chans' := if inserted then jsSet st.channels channel.name c' else st.channels
    { err := some e,
      state := { st with users := users', channels := chans' },
      chan := c' }
  | (none, users', c', buf') =>
    let chans' := if inserted then jsSet st.channels channel.name c' else st.channels
    let wb' := st.writebuffer ++ [":" ++ st.sid ++ " " ++ buf' ++ "\r\n"]
    { err := none,
      state := { st with users := users', channels := chans', writebuffer := wb' },
      chan := c' }

theorem jsStartsWith_empty (m : Char) : jsStartsWith "" m = false := rfl

theorem ne_empty_of_jsStartsWith (t : String) (m : Char) (h : jsStartsWith t m = true) :
    t ≠ "" := by
  intro h0
  rw [h0, jsStartsWith_empty] at h
  exact Bool.false_ne_true h

theorem jsStartsWith_false_of (t : String) (a b : Char) (h : jsStartsWith t a = true)
    (hab : b ≠ a) : jsStartsWith t b = false := by
  simp only [jsStartsWith, beq_iff_eq] at h
  simp only [jsStartsWith, beq_eq_false_iff_ne, ne_eq, h, Option.some.injEq]
  exact fun hh => hab hh.symm

theorem markedToks_nil (m : Char) : markedToks m [] = [] := rfl

theorem markedToks_cons_pos (m : Char) (t : String) (rest : List String)
    (h : jsStartsWith t m = true) :
    markedToks m (t :: rest) = jsSlice1 t :: markedToks m rest := by
  simp [markedToks, h]

theorem markedToks_cons_neg (m : Char) (t : String) (rest : List String)
    (h : jsStartsWith t m = false) :
    markedToks m (t :: rest) = markedToks m rest := by
  simp [markedToks, h]

theorem isMemberTok_iff (t : String) :
    isMemberTok t = true ↔
      t ≠ "" ∧ jsStartsWith t '&' = false ∧ jsStartsWith t quotChar = false ∧
        jsStartsWith t apostChar = false := by
  simp [isMemberTok, Bool.and_eq_true, Bool.not_eq_true', decide_eq_true_iff, and_assoc]

theorem sjoinStep_empty (users : List (String × User)) (c : Channel) (name : String)
    (d : Bool) : sjoinStep users c name d "" = some (users, c) := by
  simp [sjoinStep]

theorem sjoinStep_ban (users : List (String × User)) (c : Channel) (name : String)
    (d : Bool) (t : String) (h : jsStartsWith t '&' = true) :
    sjoinStep users c name d t = some (users, { c with bans := c.bans ++ [jsSlice1 t] }) := by
  rw [sjoinStep, if_neg (ne_empty_of_jsStartsWith t '&' h), h]
  simp

theorem sjoinStep_except (users : List (String × User)) (c : Channel) (name : String)
    (d : Bool) (t : String) (h : jsStartsWith t quotChar = true) :
    sjoinStep users c name d t = some (users, { c with excepts := c.excepts ++ [jsSlice1 t] }) := by
  rw [sjoinStep, if_neg (ne_empty_of_jsStartsWith t quotChar h),
      jsStartsWith_false_of t quotChar '&' h (by decide), h]
  simp

theorem sjoinStep_invEx (users : List (String × User)) (c : Channel) (name : String)
    (d : Bool) (t : String) (h : jsStartsWith t apostChar = true) :
    sjoinStep users c name d t =
      some (users, { c with inviteExcepts := c.inviteExcepts ++ [jsSlice1 t] }) := by
  rw [sjoinStep, if_neg (ne_empty_of_jsStartsWith t apostChar h),
      jsStartsWith_false_of t apostChar '&' h (by decide),
      jsStartsWith_false_of t apostChar quotChar h (by decide), h]
  simp

/-- The membership value a member token installs. -/
def tokMember (d : Bool) (t : String) (u : User) : Member :=
  { uid := u.uid, pfx := if d then "" else (memberMatch t).1 }

theorem sjoinStep_member_none (users : List (String × User)) (c : Channel) (name : String)
    (d : Bool) (t : String) (hm : isMemberTok t = true)
    (hu : jsGet users (memberMatch t).2 = none) :
    sjoinStep users c name d t = none := by
  obtain ⟨h1, h2, h3, h4⟩ := (isMemberTok_iff t).mp hm
  rw [sjoinStep, if_neg h1, h2, h3, h4]
  simp [hu]

theorem sjoinStep_member_some (users : List (String × User)) (c : Channel) (name : String)
    (d : Bool) (t : String) (u : User) (hm : isMemberTok t = true)
    (hu : jsGet users (memberMatch t).2 = some u) :
    sjoinStep users c name d t =
      some (jsSet users (memberMatch t).2
              ({ u with memberships := jsSet u.memberships name (tokMember d t u) }),
            { c with users := jsSet c.users u.nickname (tokMember d t u) }) := by
  obtain ⟨h1, h2, h3, h4⟩ := (isMemberTok_iff t).mp hm
  rw [sjoinStep, if_neg h1, h2, h3, h4]
  simp [hu, tokMember]

theorem sjoinTokens_fields (name : String) (d : Bool) (toks : List String) :
    ∀ users c users' c', sjoinTokens users c name d toks = some (users', c') →
      c'.modes = c.modes ∧ c'.name = c.name ∧ c'.timestamp = c.timestamp ∧
      c'.bans = c.bans ++ markedToks '&' toks ∧
      c'.excepts = c.excepts ++ markedToks quotChar toks ∧
      c'.inviteExcepts = c.inviteExcepts ++ markedToks apostChar toks := by
  induction toks with
  | nil =>
    intro users c users' c' hrun
    simp only [sjoinTokens, Option.some.injEq, Prod.mk.injEq] at hrun
    obtain ⟨h1, h2⟩ := hrun
    subst h1; subst h2
    simp [markedToks_nil]
  | cons t rest ih =>
    intro users c users' c' hrun
    by_cases h1 : t = ""
    · subst h1
      rw [sjoinTokens] at hrun
      rw [sjoinStep_empty] at hrun
      have h := ih users c users' c' hrun
      simpa [markedToks_cons_neg _ "" _ (jsStartsWith_empty _)] using h
    · cases h2 : jsStartsWith t '&' with
      | true =>
        rw [sjoinTokens] at hrun
        rw [sjoinStep_ban users c name d t h2] at hrun
        obtain ⟨hm, hn, ht, hb, he, hi⟩ := ih _ _ _ _ hrun
        rw [markedToks_cons_pos _ _ _ h2,
            markedToks_cons_neg quotChar t rest (jsStartsWith_false_of t '&' quotChar h2 (by decide)),
            markedToks_cons_neg apostChar t rest (jsStartsWith_false_of t '&' apostChar h2 (by decide))]
        refine ⟨hm, hn, ht, ?_, he, hi⟩
        rw [hb]
        simp
      | false =>
        cases h3 : jsStartsWith t quotChar with
        | true =>
          rw [sjoinTokens] at hrun
          rw [sjoinStep_except users c name d t h3] at hrun
          obtain ⟨hm, hn, ht, hb, he, hi⟩ := ih _ _ _ _ hrun
          rw [markedToks_cons_neg '&' t rest h2,
              markedToks_cons_pos _ _ _ h3,
              markedToks_cons_neg apostChar t rest
                (jsStartsWith_false_of t quotChar apostChar h3 (by decide))]
          refine ⟨hm, hn, ht, hb, ?_, hi⟩
          rw [he]
          simp
        | false =>
          cases h4 : jsStartsWith t apostChar with
          | true =>
            rw [sjoinTokens] at hrun
            rw [sjoinStep_invEx users c name d t h4] at hrun
            obtain ⟨hm, hn, ht, hb, he, hi⟩ := ih _ _ _ _ hrun
            rw [markedToks_cons_neg '&' t rest h2,
                markedToks_cons_neg quotChar t rest h3,
                markedToks_cons_pos _ _ _ h4]
            refine ⟨hm, hn, ht, hb, he, ?_⟩
            rw [hi]
            simp
          | false =>
            have hmt : isMemberTok t = true := (isMemberTok_iff t).mpr ⟨h1, h2, h3, h4⟩
            rw [markedToks_cons_neg '&' t rest h2, markedToks_cons_neg quotChar t rest h3,
                markedToks_cons_neg apostChar t rest h4]
            cases hu : jsGet users (memberMatch t).2 with
            | none =>
              rw [sjoinTokens] at hrun
              rw [sjoinStep_member_none users c name d t hmt hu] at hrun
              cases hrun
            | some u =>
              rw [sjoinTokens] at hrun
              rw [sjoinStep_member_some users c name d t u hmt hu] at hrun
              have h := ih _ _ _ _ hrun
              simpa using h

theorem sjoinStep_nick_stable (users : List (String × User)) (c : Channel) (name : String)
    (d : Bool) (t : String) (users1 : List (String × User)) (c1 : Channel)
    (h : sjoinStep users c name d t = some (users1, c1)) :
    ∀ k, (jsGet users1 k).map User.nickname = (jsGet users k).map User.nickname := by
  by_cases h1 : t = ""
  · subst h1
    rw [sjoinStep_empty] at h
    injection h with h'
    injection h' with h5 h6
    subst h5
    intro k; rfl
  · cases h2 : jsStartsWith t '&' with
    | true =>
      rw [sjoinStep_ban users c name d t h2] at h
      injection h with h'
      injection h' with h5 h6
      subst h5
      intro k; rfl
    | false =>
      cases h3 : jsStartsWith t quotChar with
      | true =>
        rw [sjoinStep_except users c name d t h3] at h
        injection h with h'
        injection h' with h5 h6
        subst h5
        intro k; rfl
      | false =>
        cases h4 : jsStartsWith t apostChar with
        | true =>
          rw [sjoinStep_invEx users c name d t h4] at h
          injection h with h'
          injection h' with h5 h6
          subst h5
          intro k; rfl
        | false =>
          have hmt : isMemberTok t = true := (isMemberTok_iff t).mpr ⟨h1, h2, h3, h4⟩
          cases hu : jsGet users (memberMatch t).2 with
          | none =>
            rw [sjoinStep_member_none users c name d t hmt hu] at h
            cases h
          | some u =>
            rw [sjoinStep_member_some users c name d t u hmt hu] at h
            injection h with h'
            injection h' with h5 h6
            subst h5
            intro k
            by_cases hk : k = (memberMatch t).2
            · subst hk
              rw [jsGet_jsSet_self, hu]
              rfl
            · rw [jsGet_jsSet_ne _ _ _ _ hk]

theorem sjoinTokens_nick_stable (name : String) (d : Bool) (toks : List String) :
    ∀ users c users' c', sjoinTokens users c name d toks = some (users', c') →
      ∀ k, (jsGet users' k).map User.nickname = (jsGet users k).map User.nickname := by
  induction toks with
  | nil =>
    intro users c users' c' hrun k
    simp only [sjoinTokens, Option.some.injEq, Prod.mk.injEq] at hrun
    rw [hrun.1.symm]
  | cons t rest ih =>
    intro users c users' c' hrun k
    rw [sjoinTokens] at hrun
    cases hstep : sjoinStep users c name d t with
    | none => rw [hstep] at hrun; cases hrun
    | some pair =>
      obtain ⟨users1, c1⟩ := pair
      rw [hstep] at hrun
      rw [ih users1 c1 users' c' hrun k]
      exact sjoinStep_nick_stable users c name d t users1 c1 hstep k

theorem sjoinTokens_users_unsafe (name : String) (toks : List String) :
    ∀ users c users' c', sjoinTokens users c name true toks = some (users', c') →
      ∀ k m, jsGet c'.users k = some m → jsGet c.users k = some m ∨ m.pfx = "" := by
  induction toks with
  | nil =>
    intro users c users' c' hrun k m hm
    simp only [sjoinTokens, Option.some.injEq, Prod.mk.injEq] at hrun
    rw [← hrun.2] at hm
    exact Or.inl hm
  | cons t rest ih =>
    intro users c users' c' hrun k m hm
    rw [sjoinTokens] at hrun
    by_cases h1 : t = ""
    · subst h1
      rw [sjoinStep_empty] at hrun
      exact ih users c users' c' hrun k m hm
    · cases h2 : jsStartsWith t '&' with
      | true =>
        rw [sjoinStep_ban users c name true t h2] at hrun
        exact ih _ _ _ _ hrun k m hm
      | false =>
        cases h3 : jsStartsWith t quotChar with
        | true =>
          rw [sjoinStep_except users c name true t h3] at hrun
          exact ih _ _ _ _ hrun k m hm
        | false =>
          cases h4 : jsStartsWith t apostChar with
          | true =>
            rw [sjoinStep_invEx users c name true t h4] at hrun
            exact ih _ _ _ _ hrun k m hm
          | false =>
            have hmt : isMemberTok t = true := (isMemberTok_iff t).mpr ⟨h1, h2, h3, h4⟩
            cases hu : jsGet users (memberMatch t).2 with
            | none =>
              rw [sjoinStep_member_none users c name true t hmt hu] at hrun
              cases hrun
            | some u =>
              rw [sjoinStep_member_some users c name true t u hmt hu] at hrun
              rcases ih _ _ _ _ hrun k m hm with hin | hpfx
              · by_cases hk : k = u.nickname
                · subst hk
                  rw [jsGet_jsSet_self] at hin
                  injection hin with hin'
                  subst hin'
                  exact Or.inr rfl
                · rw [jsGet_jsSet_ne _ _ _ _ hk] at hin
                  exact Or.inl hin
              · exact Or.inr hpfx

theorem sjoinTokens_preserves_emptyPfx (name : String) (toks : List String) :
    ∀ users c users' c' k, sjoinTokens users c name true toks = some (users', c') →
      (∃ m, jsGet c.users k = some m ∧ m.pfx = "") →
      ∃ m, jsGet c'.users k = some m ∧ m.pfx = "" := by
  induction toks with
  | nil =>
    intro users c users' c' k hrun hex
    simp only [sjoinTokens, Option.some.injEq, Prod.mk.injEq] at hrun
    rw [← hrun.2]
    exact hex
  | cons t rest ih =>
    intro users c users' c' k hrun hex
    rw [sjoinTokens] at hrun
    by_cases h1 : t = ""
    · subst h1
      rw [sjoinStep_empty] at hrun
      exact ih _ _ _ _ _ hrun hex
    · cases h2 : jsStartsWith t '&' with
      | true =>
        rw [sjoinStep_ban users c name true t h2] at hrun
        exact ih _ _ _ _ _ hrun hex
      | false =>
        cases h3 : jsStartsWith t quotChar with
        | true =>
          rw [sjoinStep_except users c name true t h3] at hrun
          exact ih _ _ _ _ _ hrun hex
        | false =>
          cases h4 : jsStartsWith t apostChar with
          | true =>
            rw [sjoinStep_invEx users c name true t h4] at hrun
            exact ih _ _ _ _ _ hrun hex
          | false =>
            have hmt : isMemberTok t = true := (isMemberTok_iff t).mpr ⟨h1, h2, h3, h4⟩
            cases hu : jsGet users (memberMatch t).2 with
            | none =>
              rw [sjoinStep_member_none users c name true t hmt hu] at hrun
              cases hrun
            | some u =>
              rw [sjoinStep_member_some users c name true t u hmt hu] at hrun
              refine ih _ _ _ _ _ hrun ?_
              by_cases hk : k = u.nickname
              · subst hk
                exact ⟨tokMember true t u, jsGet_jsSet_self _ _ _, rfl⟩
              · obtain ⟨m, hm, hp⟩ := hex
                refine ⟨m, ?_, hp⟩
                show jsGet (jsSet c.users u.nickname (tokMember true t u)) k = some m
                rw [jsGet_jsSet_ne _ _ _ _ hk]
                exact hm

theorem sjoinTokens_installs_unsafe (name : String) (toks : List String) :
    ∀ users c users' c', sjoinTokens users c name true toks = some (users', c') →
      ∀ t ∈ toks, isMemberTok t = true →
        ∀ u, jsGet users (memberMatch t).2 = some u →
          ∃ m, jsGet c'.users u.nickname = some m ∧ m.pfx = "" := by
  induction toks with
  | nil =>
    intro users c users' c' hrun t ht
    cases ht
  | cons t0 rest ih =>
    intro users c users' c' hrun t htmem hmt u hu
    rw [sjoinTokens] at hrun
    rcases List.mem_cons.mp htmem with rfl | htrest
    · rw [sjoinStep_member_some users c name true t u hmt hu] at hrun
      refine sjoinTokens_preserves_emptyPfx name rest _ _ _ _ u.nickname hrun ?_
      exact ⟨tokMember true t u, jsGet_jsSet_self _ _ _, rfl⟩
    · cases hstep : sjoinStep users c name true t0 with
      | none => rw [hstep] at hrun; cases hrun
      | some pair =>
        obtain ⟨users1, c1⟩ := pair
        rw [hstep] at hrun
        have hstab := sjoinStep_nick_stable users c name true t0 users1 c1 hstep (memberMatch t).2
        rw [hu] at hstab
        cases hu1 : jsGet users1 (memberMatch t).2 with
        | none => rw [hu1] at hstab; cases hstab
        | some u1 =>
          rw [hu1] at hstab
          have hnick : u1.nickname = u.nickname := by simpa using hstab
          rw [← hnick]
          exact ih users1 c1 users' c' hrun t htrest hmt u1 hu1

/-- C2: an SJOIN whose announced timestamp is strictly newer than the
local channel's leaves the local mode string unchanged, installs every
member token of the burst with an empty prefix, and still appends every
ban, except and invite-exception token to the corresponding list. -/
theorem sjoin_newer_unsafe_burst
    (st : State) (ts : Int) (name tok : String) (toks : List String)
    (incumbent : Channel) (st' : State)
    (hInc : jsGet st.channels name = some incumbent)
    (hTs : incumbent.timestamp < ts)
    (hRun : sjoinHandler st ts name tok toks = some st') :
    ∃ ch', jsGet st'.channels name = some ch' ∧
      ch'.modes = incumbent.modes ∧
      ch'.bans = incumbent.bans ++ markedToks '&' toks ∧
      ch'.excepts = incumbent.excepts ++ markedToks quotChar toks ∧
      ch'.inviteExcepts = incumbent.inviteExcepts ++ markedToks apostChar toks ∧
      (∀ k m, jsGet ch'.users k = some m → jsGet incumbent.users k = some m ∨ m.pfx = "") ∧
      (∀ t ∈ toks, isMemberTok t = true →
        ∀ u, jsGet st.users (memberMatch t).2 = some u →
          ∃ m, jsGet ch'.users u.nickname = some m ∧ m.pfx = "") := by
  simp only [sjoinHandler, hInc] at hRun
  rw [if_neg (ne_of_gt hTs), if_neg (lt_asymm hTs)] at hRun
  cases hLoop : sjoinTokens st.users incumbent name true toks with
  | none => rw [hLoop] at hRun; cases hRun
  | some pair =>
    obtain ⟨users2, ch2⟩ := pair
    rw [hLoop] at hRun
    obtain rfl : ({ st with users := users2, channels := jsSet st.channels name ch2 } : State) = st' :=
      Option.some.inj hRun
    obtain ⟨hm, _, _, hb, he, hi⟩ := sjoinTokens_fields name true toks _ _ _ _ hLoop
    refine ⟨ch2, jsGet_jsSet_self _ _ _, hm, hb, he, hi, ?_, ?_⟩
    · exact sjoinTokens_users_unsafe name toks _ _ _ _ hLoop
    · exact sjoinTokens_installs_unsafe name toks _ _ _ _ hLoop

/-- C3: an SJOIN on an existing channel with an equal announced timestamp
yields a mode string whose flags are exactly the union of the announced
and local flag sets, each flag occurring exactly once. -/
theorem sjoin_equal_ts_union
    (st : State) (ts : Int) (name tok : String) (toks : List String)
    (incumbent : Channel) (st' : State)
    (hInc : jsGet st.channels name = some incumbent)
    (hTs : ts = incumbent.timestamp)
    (hRun : sjoinHandler st ts name tok toks = some st') :
    ∃ ch', jsGet st'.channels name = some ch' ∧
      (∀ c, c ∈ ch'.modes.data ↔
        ((c ∈ (effModes tok).data ∨ c ∈ incumbent.modes.data) ∧ c ≠ '+')) ∧
      ch'.modes.data.Nodup := by
  simp only [sjoinHandler, hInc] at hRun
  rw [if_pos hTs] at hRun
  cases hLoop : sjoinTokens st.users
      ({ incumbent with
         modes := String.mk (addFlagsL (addFlagsL [] (effModes tok).data) incumbent.modes.data) })
      name false toks with
  | none => rw [hLoop] at hRun; cases hRun
  | some pair =>
    obtain ⟨users2, ch2⟩ := pair
    rw [hLoop] at hRun
    obtain rfl : ({ st with users := users2, channels := jsSet st.channels name ch2 } : State) = st' :=
      Option.some.inj hRun
    obtain ⟨hm, _, _, _, _, _⟩ := sjoinTokens_fields name false toks _ _ _ _ hLoop
    refine ⟨ch2, jsGet_jsSet_self _ _ _, ?_, ?_⟩
    · intro c
      rw [hm]
      show c ∈ addFlagsL (addFlagsL [] (effModes tok).data) incumbent.modes.data ↔ _
      rw [mem_addFlagsL, mem_addFlagsL]
      simp only [List.not_mem_nil, false_or]
      constructor
      · rintro (⟨hc, hne⟩ | ⟨hc, hne⟩)
        · exact ⟨Or.inl hc, hne⟩
        · exact ⟨Or.inr hc, hne⟩
      · rintro ⟨hc | hc, hne⟩
        · exact Or.inl ⟨hc, hne⟩
        · exact Or.inr ⟨hc, hne⟩
    · rw [hm]
      show (addFlagsL (addFlagsL [] (effModes tok).data) incumbent.modes.data).Nodup
      exact nodup_addFlagsL _ _ (nodup_addFlagsL _ _ List.nodup_nil)

/-- C4: an SJOIN on an existing channel with a strictly older announced
timestamp replaces the channel's mode string with the announced mode
string exactly. -/
theorem sjoin_older_ts_replaces
    (st : State) (ts : Int) (name tok : String) (toks : List String)
    (incumbent : Channel) (st' : State)
    (hInc : jsGet st.channels name = some incumbent)
    (hTok : jsStartsWith tok '+' = true)
    (hTs : ts < incumbent.timestamp)
    (hRun : sjoinHandler st ts name tok toks = some st') :
    ∃ ch', jsGet st'.channels name = some ch' ∧ ch'.modes = tok := by
  simp only [sjoinHandler, hInc] at hRun
  rw [if_neg (ne_of_lt hTs), if_pos hTs] at hRun
  cases hLoop : sjoinTokens st.users ({ incumbent with modes := effModes tok })
      name false toks with
  | none => rw [hLoop] at hRun; cases hRun
  | some pair =>
    obtain ⟨users2, ch2⟩ := pair
    rw [hLoop] at hRun
    obtain rfl : ({ st with users := users2, channels := jsSet st.channels name ch2 } : State) = st' :=
      Option.some.inj hRun
    obtain ⟨hm, _, _, _, _, _⟩ := sjoinTokens_fields name false toks _ _ _ _ hLoop
    refine ⟨ch2, jsGet_jsSet_self _ _ _, ?_⟩
    rw [hm]
    show effModes tok = tok
    rw [effModes, if_pos hTok]

/-- Concrete user for witness scenarios. -/
def wUser : User :=
  { nickname := "alice", hopcount := 0, timestamp := 1, username := "u", hostname := "h",
    uid := "001AAAAAA", servicestamp := "*", usermodes := "+", virtualhost := "v",
    cloakedhost := "c", ip := "i", gecos := "g" }

/-- Concrete channel for witness scenarios. -/
def wChan : Channel :=
  { name := "#e", timestamp := 100, modes := "+tn", users := [],
    bans := [], excepts := [], inviteExcepts := [] }

/-- Concrete state for witness scenarios. -/
def wState : State :=
  { users := [("001AAAAAA", wUser)], usersByNick := [("alice", "001AAAAAA")],
    channels := [("#e", wChan)], writebuffer := [], sid := "999" }

/-- Concrete burst buffer for witness scenarios. -/
def wToks : List String := ["@001AAAAAA", "&b!m"]

/-- Result state of the newer-timestamp witness run. -/
def c2St : State := (sjoinHandler wState 200 "#e" "+m" wToks).getD wState

/-- Witness for C2 at a concrete newer-timestamp burst. -/
theorem sjoin_newer_unsafe_burst_witness :
    (jsGet wState.channels "#e" = some wChan ∧ wChan.timestamp < 200 ∧
      sjoinHandler wState 200 "#e" "+m" wToks = some c2St) ∧
    (∃ ch', jsGet c2St.channels "#e" = some ch' ∧
      ch'.modes = wChan.modes ∧
      ch'.bans = wChan.bans ++ markedToks '&' wToks ∧
      ch'.excepts = wChan.excepts ++ markedToks quotChar wToks ∧
      ch'.inviteExcepts = wChan.inviteExcepts ++ markedToks apostChar wToks ∧
      (∀ k m, jsGet ch'.users k = some m → jsGet wChan.users k = some m ∨ m.pfx = "") ∧
      (∀ t ∈ wToks, isMemberTok t = true →
        ∀ u, jsGet wState.users (memberMatch t).2 = some u →
          ∃ m, jsGet ch'.users u.nickname = some m ∧ m.pfx = "")) :=
  ⟨⟨by decide, by decide, by decide⟩,
   sjoin_newer_unsafe_burst wState 200 "#e" "+m" wToks wChan c2St
     (by decide) (by decide) (by decide)⟩

/-- Result state of the equal-timestamp witness run. -/
def c3St : State := (sjoinHandler wState 100 "#e" "+ms" wToks).getD wState

/-- Witness for C3 at a concrete equal-timestamp burst. -/
theorem sjoin_equal_ts_union_witness :
    (jsGet wState.channels "#e" = some wChan ∧ (100 : Int) = wChan.timestamp ∧
      sjoinHandler wState 100 "#e" "+ms" wToks = some c3St) ∧
    (∃ ch', jsGet c3St.channels "#e" = some ch' ∧
      (∀ c, c ∈ ch'.modes.data ↔
        ((c ∈ (effModes "+ms").data ∨ c ∈ wChan.modes.data) ∧ c ≠ '+')) ∧
      ch'.modes.data.Nodup) :=
  ⟨⟨by decide, by decide, by decide⟩,
   sjoin_equal_ts_union wState 100 "#e" "+ms" wToks wChan c3St
     (by decide) (by decide) (by decide)⟩

/-- Result state of the older-timestamp witness run. -/
def c4St : State := (sjoinHandler wState 50 "#e" "+ms" wToks).getD wState

/-- Witness for C4 at a concrete older-timestamp burst. -/
theorem sjoin_older_ts_replaces_witness :
    (jsGet wState.channels "#e" = some wChan ∧ jsStartsWith "+ms" '+' = true ∧
      (50 : Int) < wChan.timestamp ∧
      sjoinHandler wState 50 "#e" "+ms" wToks = some c4St) ∧
    (∃ ch', jsGet c4St.channels "#e" = some ch' ∧ ch'.modes = "+ms") :=
  ⟨⟨by decide, by decide, by decide, by decide⟩,
   sjoin_older_ts_replaces wState 50 "#e" "+ms" wToks wChan c4St
     (by decide) (by decide) (by decide) (by decide)⟩

/-- Well-formedness of a stored channel mode string: no duplicate
characters, and `+` occurs at most as the single leading character. -/
def modeStrOk (s : String) : Prop :=
  s.data.Nodup ∧ ∀ c ∈ s.data.drop 1, c ≠ '+'

theorem modeAddLoop_nm (modes : List Char) :
    ∀ c args nm c' args' nm', modeAddLoop c args nm modes = some (c', args', nm') →
      nm.Nodup → (∀ a ∈ nm, a ≠ '+') → nm'.Nodup ∧ ∀ a ∈ nm', a ≠ '+' := by
  induction modes with
  | nil =>
    intro c args nm c' args' nm' hrun hnd hnp
    simp only [modeAddLoop, Option.some.injEq, Prod.mk.injEq] at hrun
    obtain ⟨-, -, h3⟩ := hrun
    subst h3
    exact ⟨hnd, hnp⟩
  | cons mode rest ih =>
    intro c args nm c' args' nm' hrun hnd hnp
    have hins : (objInsert nm mode).Nodup ∧ (mode ≠ '+' → ∀ a ∈ objInsert nm mode, a ≠ '+') := by
      refine ⟨nodup_objInsert nm mode hnd, fun hp a ha => ?_⟩
      rcases (mem_objInsert nm mode a).mp ha with h | rfl
      · exact hnp a h
      · exact hp
    cases args with
    | nil =>
      simp only [modeAddLoop] at hrun
      by_cases hp : mode = '+'
      · rw [if_pos hp] at hrun
        exact ih _ _ _ _ _ _ hrun hnd hnp
      · rw [if_neg hp] at hrun
        by_cases hr : rankModes.contains mode = true
        · rw [if_pos hr] at hrun
          exact ih _ _ _ _ _ _ hrun hnd hnp
        · rw [if_neg hr] at hrun
          by_cases hl : listModes.contains mode = true
          · rw [if_pos hl] at hrun
            exact ih _ _ _ _ _ _ hrun hnd hnp
          · rw [if_neg hl] at hrun
            exact ih _ _ _ _ _ _ hrun hins.1 (hins.2 hp)
    | cons arg argsRest =>
      simp only [modeAddLoop] at hrun
      by_cases hp : mode = '+'
      · rw [if_pos hp] at hrun
        exact ih _ _ _ _ _ _ hrun hnd hnp
      · rw [if_neg hp] at hrun
        by_cases hr : rankModes.contains mode = true
        · rw [if_pos hr] at hrun
          by_cases ha : arg = ""
          · rw [if_pos ha] at hrun
            exact ih _ _ _ _ _ _ hrun hnd hnp
          · rw [if_neg ha] at hrun
            cases hg : jsGet c.users arg with
            | none => rw [hg] at hrun; cases hrun
            | some mem =>
              rw [hg] at hrun
              exact ih _ _ _ _ _ _ hrun hnd hnp
        · rw [if_neg hr] at hrun
          by_cases hl : listModes.contains mode = true
          · rw [if_pos hl] at hrun
            by_cases ha : arg = ""
            · rw [if_pos ha] at hrun
              exact ih _ _ _ _ _ _ hrun hnd hnp
            · rw [if_neg ha] at hrun
              exact ih _ _ _ _ _ _ hrun hnd hnp
          · rw [if_neg hl] at hrun
            exact ih _ _ _ _ _ _ hrun hins.1 (hins.2 hp)

theorem modeRemoveLoop_nm (modes : List Char) :
    ∀ c args nm c' args' nm', modeRemoveLoop c args nm modes = some (c', args', nm') →
      nm.Nodup → (∀ a ∈ nm, a ≠ '+') → nm'.Nodup ∧ ∀ a ∈ nm', a ≠ '+' := by
  induction modes with
  | nil =>
    intro c args nm c' args' nm' hrun hnd hnp
    simp only [modeRemoveLoop, Option.some.injEq, Prod.mk.injEq] at hrun
    obtain ⟨-, -, h3⟩ := hrun
    subst h3
    exact ⟨hnd, hnp⟩
  | cons mode rest ih =>
    intro c args nm c' args' nm' hrun hnd hnp
    have hdel : (objDelete nm mode).Nodup ∧ ∀ a ∈ objDelete nm mode, a ≠ '+' :=
      ⟨List.Nodup.filter _ hnd, fun a ha => hnp a (List.mem_of_mem_filter ha)⟩
    cases args with
    | nil =>
      simp only [modeRemoveLoop] at hrun
      by_cases hp : mode = '+'
      · rw [if_pos hp] at hrun
        exact ih _ _ _ _ _ _ hrun hnd hnp
      · rw [if_neg hp] at hrun
        by_cases hr : rankModes.contains mode = true
        · rw [if_pos hr] at hrun
          exact ih _ _ _ _ _ _ hrun hnd hnp
        · rw [if_neg hr] at hrun
          by_cases hl : listModes.contains mode = true
          · rw [if_pos hl] at hrun
            exact ih _ _ _ _ _ _ hrun hnd hnp
          · rw [if_neg hl] at hrun
            exact ih _ _ _ _ _ _ hrun hdel.1 hdel.2
    | cons arg argsRest =>
      simp only [modeRemoveLoop] at hrun
      by_cases hp : mode = '+'
      · rw [if_pos hp] at hrun
        exact ih _ _ _ _ _ _ hrun hnd hnp
      · rw [if_neg hp] at hrun
        by_cases hr : rankModes.contains mode = true
        · rw [if_pos hr] at hrun
          by_cases ha : arg = ""
          · rw [if_pos ha] at hrun
            exact ih _ _ _ _ _ _ hrun hnd hnp
          · rw [if_neg ha] at hrun
            cases hg : jsGet c.users arg with
            | none => rw [hg] at hrun; cases hrun
            | some mem =>
              rw [hg] at hrun
              exact ih _ _ _ _ _ _ hrun hnd hnp
        · rw [if_neg hr] at hrun
          by_cases hl : listModes.contains mode = true
          · rw [if_pos hl] at hrun
            exact ih _ _ _ _ _ _ hrun hnd hnp
          · rw [if_neg hl] at hrun
            exact ih _ _ _ _ _ _ hrun hdel.1 hdel.2

theorem modeHandler_modes_shape (st : State) (src target modesTok : String)
    (args0 : List String) (st' : State)
    (h : modeHandler st src target modesTok args0 = some st') :
    ∃ nm2 ch2, jsGet st'.channels target = some ch2 ∧
      ch2.modes = String.mk ('+' :: nm2) ∧ nm2.Nodup ∧ ∀ a ∈ nm2, a ≠ '+' := by
  cases hg : jsGet st.channels target with
  | none => simp only [modeHandler, hg] at h; cases h
  | some channelObj =>
    simp only [modeHandler, hg] at h
    cases hAdd : modeAddLoop channelObj (if src.length = 3 then args0.dropLast else args0)
        (addFlagsL [] modesTok.data) (((dashSplit modesTok.data).headD []).drop 1) with
    | none => simp only [hAdd] at h; cases h
    | some tr1 =>
      obtain ⟨c1, args1, nm1⟩ := tr1
      simp only [hAdd] at h
      cases hRem : modeRemoveLoop c1 args1 nm1 (((dashSplit modesTok.data).drop 1).headD []) with
      | none => simp only [hRem] at h; cases h
      | some tr2 =>
        obtain ⟨c2, args2, nm2⟩ := tr2
        simp only [hRem] at h
        obtain rfl := Option.some.inj h
        have hbase1 : (addFlagsL [] modesTok.data).Nodup :=
          nodup_addFlagsL modesTok.data [] List.nodup_nil
        have hbase2 : ∀ a ∈ addFlagsL [] modesTok.data, a ≠ '+' :=
          addFlagsL_no_plus modesTok.data [] (by intro a ha; cases ha)
        obtain ⟨hnd1, hnp1⟩ := modeAddLoop_nm _ _ _ _ _ _ _ hAdd hbase1 hbase2
        obtain ⟨hnd2, hnp2⟩ := modeRemoveLoop_nm _ _ _ _ _ _ _ hRem hnd1 hnp1
        exact ⟨nm2, _, jsGet_jsSet_self _ _ _, rfl, hnd2, hnp2⟩

/-- Decidability of mode-string well-formedness, for concrete evaluation. -/
instance modeStrOkDecidable (s : String) : Decidable (modeStrOk s) :=
  inferInstanceAs (Decidable (s.data.Nodup ∧ ∀ c ∈ s.data.drop 1, c ≠ '+'))

/-- C5 (amended): after each operation that sets or rewrites a channel's
mode string, the stored string has `+` at most as its single leading
character and no duplicate flags — unconditionally for a MODE decode and
for the equal-timestamp SJOIN union, and provided the announced mode
string is itself well-formed for SJOIN adoption and for the
older-timestamp replacement, both of which store the announced token
verbatim. -/
theorem mode_string_wellformed :
    (∀ st ts name tok toks st', jsGet st.channels name = none →
        modeStrOk (effModes tok) → sjoinHandler st ts name tok toks = some st' →
        ∀ ch', jsGet st'.channels name = some ch' → modeStrOk ch'.modes) ∧
    (∀ st ts name tok toks st' incumbent, jsGet st.channels name = some incumbent →
        ts = incumbent.timestamp → sjoinHandler st ts name tok toks = some st' →
        ∀ ch', jsGet st'.channels name = some ch' → modeStrOk ch'.modes) ∧
    (∀ st ts name tok toks st' incumbent, jsGet st.channels name = some incumbent →
        ts < incumbent.timestamp → modeStrOk (effModes tok) →
        sjoinHandler st ts name tok toks = some st' →
        ∀ ch', jsGet st'.channels name = some ch' → modeStrOk ch'.modes) ∧
    (∀ st src target modesTok args0 st',
        modeHandler st src target modesTok args0 = some st' →
        ∀ ch', jsGet st'.channels target = some ch' → modeStrOk ch'.modes) := by
  refine ⟨?_, ?_, ?_, ?_⟩
  · intro st ts name tok toks st' hNone hOk hRun ch' hCh
    simp only [sjoinHandler, hNone] at hRun
    cases hLoop : sjoinTokens st.users
        ({ name := name, timestamp := ts, modes := effModes tok, users := [],
           bans := [], excepts := [], inviteExcepts := [] }) name false toks with
    | none => rw [hLoop] at hRun; cases hRun
    | some pair =>
      obtain ⟨users2, ch2⟩ := pair
      rw [hLoop] at hRun
      obtain rfl : ({ st with users := users2, channels := jsSet st.channels name ch2 } : State)
          = st' := Option.some.inj hRun
      rw [jsGet_jsSet_self] at hCh
      obtain rfl : ch2 = ch' := Option.some.inj hCh
      obtain ⟨hm, -, -, -, -, -⟩ := sjoinTokens_fields name false toks _ _ _ _ hLoop
      rw [hm]
      exact hOk
  · intro st ts name tok toks st' incumbent hInc hTs hRun ch' hCh
    simp only [sjoinHandler, hInc] at hRun
    rw [if_pos hTs] at hRun
    cases hLoop : sjoinTokens st.users
        ({ incumbent with
           modes := String.mk (addFlagsL (addFlagsL [] (effModes tok).data) incumbent.modes.data) })
        name false toks with
    | none => rw [hLoop] at hRun; cases hRun
    | some pair =>
      obtain ⟨users2, ch2⟩ := pair
      rw [hLoop] at hRun
      obtain rfl : ({ st with users := users2, channels := jsSet st.channels name ch2 } : State)
          = st' := Option.some.inj hRun
      rw [jsGet_jsSet_self] at hCh
      obtain rfl : ch2 = ch' := Option.some.inj hCh
      obtain ⟨hm, -, -, -, -, -⟩ := sjoinTokens_fields name false toks _ _ _ _ hLoop
      rw [hm]
      constructor
      · exact nodup_addFlagsL _ _ (nodup_addFlagsL _ _ List.nodup_nil)
      · intro c hc
        refine addFlagsL_no_plus _ _ ?_ c (List.mem_of_mem_drop hc)
        intro a ha
        refine addFlagsL_no_plus _ _ ?_ a ha
        intro a' ha'
        cases ha'
  · intro st ts name tok toks st' incumbent hInc hTs hOk hRun ch' hCh
    simp only [sjoinHandler, hInc] at hRun
    rw [if_neg (ne_of_lt hTs), if_pos hTs] at hRun
    cases hLoop : sjoinTokens st.users ({ incumbent with modes := effModes tok })
        name false toks with
    | none => rw [hLoop] at hRun; cases hRun
    | some pair =>
      obtain ⟨users2, ch2⟩ := pair
      rw [hLoop] at hRun
      obtain rfl : ({ st with users := users2, channels := jsSet st.channels name ch2 } : State)
          = st' := Option.some.inj hRun
      rw [jsGet_jsSet_self] at hCh
      obtain rfl : ch2 = ch' := Option.some.inj hCh
      obtain ⟨hm, -, -, -, -, -⟩ := sjoinTokens_fields name false toks _ _ _ _ hLoop
      rw [hm]
      exact hOk
  · intro st src target modesTok args0 st' hRun ch' hCh
    obtain ⟨nm2, ch2, hg, hmodes, hnd, hnp⟩ :=
      modeHandler_modes_shape st src target modesTok args0 st' hRun
    rw [hg] at hCh
    obtain rfl : ch2 = ch' := Option.some.inj hCh
    rw [hmodes]
    constructor
    · show ('+' :: nm2).Nodup
      rw [List.nodup_cons]
      exact ⟨fun hmem => (hnp '+' hmem) rfl, hnd⟩
    · intro c hc
      exact hnp c hc

/-- C5 counterexample: bursting a fresh channel with the announced mode
token `+nn` stores `+nn` verbatim — a duplicate flag, violating the
claimed invariant for the SJOIN-adoption operation. -/
theorem mode_string_wellformed_counterexample :
    jsGet wState.channels "#new" = none ∧
    ((sjoinHandler wState 300 "#new" "+nn" ["001AAAAAA"]).map
      (fun st => (jsGet st.channels "#new").map Channel.modes)) = some (some "+nn") ∧
    ¬ modeStrOk "+nn" := by decide

/-- Result state of the well-formed adoption witness run. -/
def c5St : State := (sjoinHandler wState 300 "#new" "+nt" ["001AAAAAA"]).getD wState

/-- Witness for the amended C5 at a concrete well-formed adoption. -/
theorem mode_string_wellformed_witness :
    (jsGet wState.channels "#new" = none ∧ modeStrOk (effModes "+nt") ∧
      sjoinHandler wState 300 "#new" "+nt" ["001AAAAAA"] = some c5St) ∧
    (∀ ch', jsGet c5St.channels "#new" = some ch' → modeStrOk ch'.modes) :=
  ⟨⟨by decide, by decide, by decide⟩,
   mode_string_wellformed.1 wState 300 "#new" "+nt" ["001AAAAAA"] c5St
     (by decide) (by decide) (by decide)⟩

theorem data_append (a b : String) : (a ++ b).data = a.data ++ b.data := rfl

theorem mk_data (s : String) : String.mk s.data = s := rfl

theorem addFlagsL_pair_plus (md : Char) (hp : md ≠ '+') :
    addFlagsL [] ['+', md] = [md] := by
  rw [addFlagsL_cons_plus, addFlagsL_cons_ne _ _ _ hp, addFlagsL_nil]
  simp [objInsert]

theorem addFlagsL_pair_dash (md : Char) (hp : md ≠ '+') (hd : md ≠ '-') :
    addFlagsL [] ['-', md] = ['-', md] := by
  rw [addFlagsL_cons_ne _ _ _ (by decide), addFlagsL_cons_ne _ _ _ hp, addFlagsL_nil]
  have h1 : objInsert [] '-' = ['-'] := by simp [objInsert]
  rw [h1]
  simp [objInsert, hd]

theorem dashSplit_plus_pair (md : Char) (hd : md ≠ '-') :
    dashSplit ['+', md] = [['+', md]] := by
  simp only [dashSplit]
  rw [if_neg (by decide : ¬('+' = '-')), if_neg hd]

theorem dashSplit_dash_pair (md : Char) (hd : md ≠ '-') :
    dashSplit ['-', md] = [[], [md]] := by
  simp only [dashSplit]
  rw [if_neg hd]
  simp

theorem modeAddLoop_nil_modes (c : Channel) (args : List String) (nm : List Char) :
    modeAddLoop c args nm [] = some (c, args, nm) := rfl

theorem modeRemoveLoop_nil_modes (c : Channel) (args : List String) (nm : List Char) :
    modeRemoveLoop c args nm [] = some (c, args, nm) := rfl

theorem modeAddLoop_rank_single (c : Channel) (nick : String) (nm : List Char) (md : Char)
    (mem : Member) (hp : md ≠ '+') (hcont : rankModes.contains md = true)
    (hnick : nick ≠ "") (hmem : jsGet c.users nick = some mem) :
    modeAddLoop c [nick] nm [md] =
      some ({ c with users := jsSet c.users nick ({ mem with pfx := mem.pfx ++ String.mk [ModeToPrefix md] }) }, [], nm) := by
  simp only [modeAddLoop]
  rw [if_neg hp, if_pos hcont, if_neg hnick, hmem]

theorem modeRemoveLoop_rank_single (c : Channel) (nick : String) (nm : List Char) (md : Char)
    (mem : Member) (hp : md ≠ '+') (hcont : rankModes.contains md = true)
    (hnick : nick ≠ "") (hmem : jsGet c.users nick = some mem) :
    modeRemoveLoop c [nick] nm [md] =
      some ({ c with users := jsSet c.users nick ({ mem with pfx := String.mk (removeFirstL mem.pfx.data (ModeToPrefix md)) }) }, [], nm) := by
  simp only [modeRemoveLoop]
  rw [if_neg hp, if_pos hcont, if_neg hnick, hmem]

theorem modeHandler_single_rank_grant (st : State) (src target nick : String) (md : Char)
    (ch : Channel) (mem : Member)
    (hch : jsGet st.channels target = some ch) (hsrc : ¬src.length = 3)
    (hp : md ≠ '+') (hd : md ≠ '-') (hcont : rankModes.contains md = true)
    (hnick : nick ≠ "") (hmem : jsGet ch.users nick = some mem) :
    modeHandler st src target (String.mk ['+', md]) [nick] =
      some ({ st with channels := jsSet st.channels target ({ ch with users := jsSet ch.users nick ({ mem with pfx := mem.pfx ++ String.mk [ModeToPrefix md] }), modes := String.mk ['+', md] }) }) := by
  simp only [modeHandler, hch, if_neg hsrc]
  rw [dashSplit_plus_pair md hd, addFlagsL_pair_plus md hp]
  rw [show List.drop 1 (([['+', md]] : List (List Char)).headD []) = [md] from rfl]
  rw [show ((List.drop 1 [['+', md]]).headD ([] : List Char)) = [] from rfl]
  rw [modeAddLoop_rank_single ch nick [md] md mem hp hcont hnick hmem]
  rfl

theorem modeHandler_single_rank_revoke (st : State) (src target nick : String) (md : Char)
    (ch : Channel) (mem : Member)
    (hch : jsGet st.channels target = some ch) (hsrc : ¬src.length = 3)
    (hp : md ≠ '+') (hd : md ≠ '-') (hcont : rankModes.contains md = true)
    (hnick : nick ≠ "") (hmem : jsGet ch.users nick = some mem) :
    modeHandler st src target (String.mk ['-', md]) [nick] =
      some ({ st with channels := jsSet st.channels target ({ ch with users := jsSet ch.users nick ({ mem with pfx := String.mk (removeFirstL mem.pfx.data (ModeToPrefix md)) }), modes := String.mk ['+', '-', md] }) }) := by
  simp only [modeHandler, hch, if_neg hsrc]
  rw [dashSplit_dash_pair md hd, addFlagsL_pair_dash md hp hd]
  rw [show List.drop 1 (([[], [md]] : List (List Char)).headD []) = [] from rfl]
  rw [show ((List.drop 1 [[], [md]]).headD ([] : List Char)) = [md] from rfl]
  simp only [modeAddLoop_nil_modes]
  rw [modeRemoveLoop_rank_single ch nick ['-', md] md mem hp hcont hnick hmem]

/-- C6 (amended): granting a rank mode to a member and then revoking it
with the same argument restores the member's prefix string, provided the
rank's symbol was not already present in the member's prefix; since the
revoke removes only the first occurrence of the symbol, a prefix that
already contains the symbol followed by a different symbol is permuted
instead of restored. -/
theorem mode_rank_grant_revoke_roundtrip
    (st : State) (src target nick : String) (md : Char) (ch : Channel) (mem : Member)
    (hch : jsGet st.channels target = some ch)
    (hsrc : ¬src.length = 3)
    (hmd : md ∈ rankModes)
    (hnick : nick ≠ "")
    (hmem : jsGet ch.users nick = some mem)
    (hpfx : ModeToPrefix md ∉ mem.pfx.data) :
    ∃ st1 st2 ch2 mem2,
      modeHandler st src target (String.mk ['+', md]) [nick] = some st1 ∧
      modeHandler st1 src target (String.mk ['-', md]) [nick] = some st2 ∧
      jsGet st2.channels target = some ch2 ∧
      jsGet ch2.users nick = some mem2 ∧ mem2.pfx = mem.pfx := by
  have hmd' : md = 'v' ∨ md = 'h' ∨ md = 'o' ∨ md = 'a' ∨ md = 'q' := by
    simpa [rankModes] using hmd
  have hp : md ≠ '+' := by
    rcases hmd' with rfl | rfl | rfl | rfl | rfl <;> decide
  have hd : md ≠ '-' := by
    rcases hmd' with rfl | rfl | rfl | rfl | rfl <;> decide
  have hcont : rankModes.contains md = true := by
    rcases hmd' with rfl | rfl | rfl | rfl | rfl <;> decide
  set mem1 : Member := { mem with pfx := mem.pfx ++ String.mk [ModeToPrefix md] } with hmem1
  set ch1 : Channel :=
    { ch with users := jsSet ch.users nick mem1, modes := String.mk ['+', md] } with hch1
  have hstep1 := modeHandler_single_rank_grant st src target nick md ch mem
    hch hsrc hp hd hcont hnick hmem
  have hch1get : jsGet (jsSet st.channels target ch1) target = some ch1 :=
    jsGet_jsSet_self _ _ _
  have hmem1get : jsGet ch1.users nick = some mem1 := by
    rw [hch1]
    exact jsGet_jsSet_self _ _ _
  have hstep2 := modeHandler_single_rank_revoke
    ({ st with channels := jsSet st.channels target ch1 }) src target nick md ch1 mem1
    hch1get hsrc hp hd hcont hnick hmem1get
  set mem2 : Member :=
    { mem1 with pfx := String.mk (removeFirstL mem1.pfx.data (ModeToPrefix md)) } with hmem2
  set ch2 : Channel :=
    { ch1 with users := jsSet ch1.users nick mem2, modes := String.mk ['+', '-', md] } with hch2
  refine ⟨_, _, ch2, mem2, hstep1, hstep2, ?_, ?_, ?_⟩
  · exact jsGet_jsSet_self _ _ _
  · show jsGet (jsSet ch1.users nick mem2) nick = some mem2
    exact jsGet_jsSet_self _ _ _
  · show mem2.pfx = mem.pfx
    rw [hmem2, hmem1]
    show String.mk (removeFirstL (mem.pfx ++ String.mk [ModeToPrefix md]).data (ModeToPrefix md)) = mem.pfx
    rw [data_append]
    rw [show (String.mk [ModeToPrefix md]).data = [ModeToPrefix md] from rfl]
    rw [removeFirstL_append_self mem.pfx.data (ModeToPrefix md) hpfx]

/-- Member with a prefix that already contains `@` before another symbol. -/
def c6Mem : Member := { uid := "001AAAAAA", pfx := "@*" }

/-- Channel hosting that member for the rank round-trip counterexample. -/
def c6Chan : Channel :=
  { name := "#y", timestamp := 5, modes := "+nt", users := [("alice", c6Mem)],
    bans := [], excepts := [], inviteExcepts := [] }

/-- State for the rank round-trip counterexample. -/
def c6State : State :=
  { users := [], usersByNick := [], channels := [("#y", c6Chan)],
    writebuffer := [], sid := "999" }

/-- State after granting `o` to the member with prefix `@*`. -/
def c6St1 : State := (modeHandler c6State "001AAAAAA" "#y" "+o" ["alice"]).getD c6State

/-- State after revoking `o` again. -/
def c6St2 : State := (modeHandler c6St1 "001AAAAAA" "#y" "-o" ["alice"]).getD c6State

/-- C6 counterexample: starting from the prefix `@*`, granting `o` gives
`@*@` and revoking `o` removes the first `@`, leaving `*@` — not the
original prefix, because `replace` removes the first occurrence. -/
theorem mode_rank_grant_revoke_roundtrip_counterexample :
    modeHandler c6State "001AAAAAA" "#y" "+o" ["alice"] = some c6St1 ∧
    modeHandler c6St1 "001AAAAAA" "#y" "-o" ["alice"] = some c6St2 ∧
    ((jsGet c6St2.channels "#y").map (fun ch => jsGet ch.users "alice")) =
      some (some ({ uid := "001AAAAAA", pfx := "*@" } : Member)) ∧
    ("*@" : String) ≠ "@*" := by decide

/-- Member whose prefix does not contain `@`, for the round-trip witness. -/
def c6WMem : Member := { uid := "001AAAAAA", pfx := "*" }

/-- Channel hosting that member for the round-trip witness. -/
def c6WChan : Channel :=
  { name := "#w", timestamp := 5, modes := "+nt", users := [("alice", c6WMem)],
    bans := [], excepts := [], inviteExcepts := [] }

/-- State for the round-trip witness. -/
def c6WState : State :=
  { users := [], usersByNick := [], channels := [("#w", c6WChan)],
    writebuffer := [], sid := "999" }

/-- Witness for the amended C6 at a concrete member and rank mode. -/
theorem mode_rank_grant_revoke_roundtrip_witness :
    (jsGet c6WState.channels "#w" = some c6WChan ∧ ¬("001AAAAAA" : String).length = 3 ∧
      'o' ∈ rankModes ∧ ("alice" : String) ≠ "" ∧
      jsGet c6WChan.users "alice" = some c6WMem ∧ ModeToPrefix 'o' ∉ c6WMem.pfx.data) ∧
    (∃ st1 st2 ch2 mem2,
      modeHandler c6WState "001AAAAAA" "#w" (String.mk ['+', 'o']) ["alice"] = some st1 ∧
      modeHandler st1 "001AAAAAA" "#w" (String.mk ['-', 'o']) ["alice"] = some st2 ∧
      jsGet st2.channels "#w" = some ch2 ∧
      jsGet ch2.users "alice" = some mem2 ∧ mem2.pfx = c6WMem.pfx) :=
  ⟨⟨by decide, by decide, by decide, by decide, by decide, by decide⟩,
   mode_rank_grant_revoke_roundtrip c6WState "001AAAAAA" "#w" "alice" 'o' c6WChan c6WMem
     (by decide) (by decide) (by decide) (by decide) (by decide) (by decide)⟩

theorem modeHandler_single_list_remove (st : State) (src target a : String) (md : Char)
    (ch : Channel)
    (hch : jsGet st.channels target = some ch) (hsrc : ¬src.length = 3)
    (hp : md ≠ '+') (hd : md ≠ '-')
    (hrank : ¬rankModes.contains md = true) (hlist : listModes.contains md = true) :
    modeHandler st src target (String.mk ['-', md]) [a] =
      some ({ st with channels := jsSet st.channels target ({ (if md = 'b' then { ch with bans := ch.bans.filter (fun x => x ≠ a) } else if md = 'e' then { ch with excepts := ch.excepts.filter (fun x => x ≠ a) } else { ch with inviteExcepts := ch.inviteExcepts.filter (fun x => x ≠ a) }) with modes := String.mk ['+', '-', md] }) }) := by
  simp only [modeHandler, hch, if_neg hsrc]
  rw [dashSplit_dash_pair md hd, addFlagsL_pair_dash md hp hd]
  rw [show List.drop 1 (([[], [md]] : List (List Char)).headD []) = [] from rfl]
  rw [show ((List.drop 1 [[], [md]]).headD ([] : List Char)) = [md] from rfl]
  simp only [modeAddLoop_nil_modes]
  have hrem : modeRemoveLoop ch [a] ['-', md] [md] =
      some ((if md = 'b' then { ch with bans := ch.bans.filter (fun x => x ≠ a) } else if md = 'e' then { ch with excepts := ch.excepts.filter (fun x => x ≠ a) } else { ch with inviteExcepts := ch.inviteExcepts.filter (fun x => x ≠ a) }), [], ['-', md]) := by
    simp only [modeRemoveLoop]
    rw [if_neg hp, if_neg hrank, if_pos hlist]
  rw [hrem]

theorem modeHandler_single_listb_add (st : State) (src target a : String) (ch : Channel)
    (hch : jsGet st.channels target = some ch) (hsrc : ¬src.length = 3) (ha : a ≠ "") :
    modeHandler st src target (String.mk ['+', 'b']) [a] =
      some ({ st with channels := jsSet st.channels target ({ ch with bans := ch.bans ++ [a], modes := String.mk ['+', 'b'] }) }) := by
  simp only [modeHandler, hch, if_neg hsrc]
  rw [show dashSplit ['+', 'b'] = [['+', 'b']] from rfl]
  rw [show addFlagsL [] ['+', 'b'] = ['b'] from rfl]
  rw [show List.drop 1 (([['+', 'b']] : List (List Char)).headD []) = ['b'] from rfl]
  rw [show ((List.drop 1 [['+', 'b']]).headD ([] : List Char)) = [] from rfl]
  have hadd : modeAddLoop ch [a] ['b'] ['b'] =
      some ({ ch with bans := ch.bans ++ [a] }, [], ['b']) := by
    simp only [modeAddLoop]
    rw [if_neg (show ¬(('b' : Char) = '+') by decide),
        if_neg (show ¬(rankModes.contains 'b' = true) by decide),
        if_pos (show listModes.contains 'b' = true by decide), if_neg ha]
    simp
  rw [hadd]
  simp only [modeRemoveLoop_nil_modes]

theorem modeHandler_single_listb_add_empty (st : State) (src target : String) (ch : Channel)
    (hch : jsGet st.channels target = some ch) (hsrc : ¬src.length = 3) :
    modeHandler st src target (String.mk ['+', 'b']) [""] =
      some ({ st with channels := jsSet st.channels target ({ ch with modes := String.mk ['+', 'b'] }) }) := by
  simp only [modeHandler, hch, if_neg hsrc]
  rw [show dashSplit ['+', 'b'] = [['+', 'b']] from rfl]
  rw [show addFlagsL [] ['+', 'b'] = ['b'] from rfl]
  rw [show List.drop 1 (([['+', 'b']] : List (List Char)).headD []) = ['b'] from rfl]
  rw [show ((List.drop 1 [['+', 'b']]).headD ([] : List Char)) = [] from rfl]
  have hadd : modeAddLoop ch [""] ['b'] ['b'] = some (ch, [], ['b']) := by
    simp only [modeAddLoop]
    rw [if_neg (show ¬(('b' : Char) = '+') by decide),
        if_neg (show ¬(rankModes.contains 'b' = true) by decide),
        if_pos (show listModes.contains 'b' = true by decide)]
    simp
  rw [hadd]
  simp only [modeRemoveLoop_nil_modes]

/-- C7: a removing MODE for a list mode in `b e I` deletes exactly the
entries equal to its argument from the corresponding list — and nothing
from the other two lists; in particular MODE `+b mask` followed by MODE
`-b mask` on a channel whose ban list is empty leaves the ban list
empty. -/
theorem mode_list_remove_exact :
    (∀ st src target a md ch, jsGet st.channels target = some ch → ¬src.length = 3 →
      md ∈ listModes →
      ∃ st' ch', modeHandler st src target (String.mk ['-', md]) [a] = some st' ∧
        jsGet st'.channels target = some ch' ∧
        (md = 'b' → ch'.bans = ch.bans.filter (fun x => x ≠ a) ∧
          ch'.excepts = ch.excepts ∧ ch'.inviteExcepts = ch.inviteExcepts) ∧
        (md = 'e' → ch'.excepts = ch.excepts.filter (fun x => x ≠ a) ∧
          ch'.bans = ch.bans ∧ ch'.inviteExcepts = ch.inviteExcepts) ∧
        (md = 'I' → ch'.inviteExcepts = ch.inviteExcepts.filter (fun x => x ≠ a) ∧
          ch'.bans = ch.bans ∧ ch'.excepts = ch.excepts)) ∧
    (∀ st src target a ch, jsGet st.channels target = some ch → ¬src.length = 3 →
      ch.bans = [] →
      ∃ st1 st2 ch2, modeHandler st src target (String.mk ['+', 'b']) [a] = some st1 ∧
        modeHandler st1 src target (String.mk ['-', 'b']) [a] = some st2 ∧
        jsGet st2.channels target = some ch2 ∧ ch2.bans = []) := by
  constructor
  · intro st src target a md ch hch hsrc hmd
    have hmd' : md = 'b' ∨ md = 'e' ∨ md = 'I' := by simpa [listModes] using hmd
    rcases hmd' with rfl | rfl | rfl
    · refine ⟨_, _,
        modeHandler_single_list_remove st src target a 'b' ch hch hsrc
          (by decide) (by decide) (by decide) (by decide),
        jsGet_jsSet_self _ _ _, ?_, ?_, ?_⟩
      · intro _
        refine ⟨?_, ?_, ?_⟩ <;> simp
      · intro h; exact absurd h (by decide)
      · intro h; exact absurd h (by decide)
    · refine ⟨_, _,
        modeHandler_single_list_remove st src target a 'e' ch hch hsrc
          (by decide) (by decide) (by decide) (by decide),
        jsGet_jsSet_self _ _ _, ?_, ?_, ?_⟩
      · intro h; exact absurd h (by decide)
      · intro _
        refine ⟨?_, ?_, ?_⟩ <;> simp
      · intro h; exact absurd h (by decide)
    · refine ⟨_, _,
        modeHandler_single_list_remove st src target a 'I' ch hch hsrc
          (by decide) (by decide) (by decide) (by decide),
        jsGet_jsSet_self _ _ _, ?_, ?_, ?_⟩
      · intro h; exact absurd h (by decide)
      · intro h; exact absurd h (by decide)
      · intro _
        refine ⟨?_, ?_, ?_⟩ <;> simp
  · intro st src target a ch hch hsrc hbans
    by_cases ha : a = ""
    · subst ha
      set ch1 : Channel := { ch with modes := String.mk ['+', 'b'] } with hch1
      have hstep1 := modeHandler_single_listb_add_empty st src target ch hch hsrc
      have hch1get : jsGet (jsSet st.channels target ch1) target = some ch1 :=
        jsGet_jsSet_self _ _ _
      have hstep2 := modeHandler_single_list_remove
        ({ st with channels := jsSet st.channels target ch1 }) src target "" 'b' ch1
        hch1get hsrc (by decide) (by decide) (by decide) (by decide)
      refine ⟨_, _, _, hstep1, hstep2, jsGet_jsSet_self _ _ _, ?_⟩
      show (if ('b' : Char) = 'b' then { ch1 with bans := ch1.bans.filter (fun x => x ≠ "") } else if ('b' : Char) = 'e' then { ch1 with excepts := ch1.excepts.filter (fun x => x ≠ "") } else { ch1 with inviteExcepts := ch1.inviteExcepts.filter (fun x => x ≠ "") }).bans = []
      rw [if_pos rfl]
      show ch1.bans.filter (fun x => x ≠ "") = []
      rw [hch1]
      show ch.bans.filter (fun x => x ≠ "") = []
      rw [hbans]
      rfl
    · set ch1 : Channel := { ch with bans := ch.bans ++ [a], modes := String.mk ['+', 'b'] }
        with hch1
      have hstep1 := modeHandler_single_listb_add st src target a ch hch hsrc ha
      have hch1get : jsGet (jsSet st.channels target ch1) target = some ch1 :=
        jsGet_jsSet_self _ _ _
      have hstep2 := modeHandler_single_list_remove
        ({ st with channels := jsSet st.channels target ch1 }) src target a 'b' ch1
        hch1get hsrc (by decide) (by decide) (by decide) (by decide)
      refine ⟨_, _, _, hstep1, hstep2, jsGet_jsSet_self _ _ _, ?_⟩
      show (if ('b' : Char) = 'b' then { ch1 with bans := ch1.bans.filter (fun x => x ≠ a) } else if ('b' : Char) = 'e' then { ch1 with excepts := ch1.excepts.filter (fun x => x ≠ a) } else { ch1 with inviteExcepts := ch1.inviteExcepts.filter (fun x => x ≠ a) }).bans = []
      rw [if_pos rfl]
      show ch1.bans.filter (fun x => x ≠ a) = []
      rw [hch1]
      show (ch.bans ++ [a]).filter (fun x => x ≠ a) = []
      rw [hbans]
      simp

/-- Witness for C7 at a concrete channel, mask and source. -/
theorem mode_list_remove_exact_witness :
    (jsGet c6WState.channels "#w" = some c6WChan ∧ ¬("001AAAAAA" : String).length = 3 ∧
      c6WChan.bans = []) ∧
    (∃ st1 st2 ch2,
      modeHandler c6WState "001AAAAAA" "#w" (String.mk ['+', 'b']) ["*!*@bad.example"] = some st1 ∧
      modeHandler st1 "001AAAAAA" "#w" (String.mk ['-', 'b']) ["*!*@bad.example"] = some st2 ∧
      jsGet st2.channels "#w" = some ch2 ∧ ch2.bans = []) :=
  ⟨⟨by decide, by decide, by decide⟩,
   mode_list_remove_exact.2 c6WState "001AAAAAA" "#w" "*!*@bad.example" c6WChan
     (by decide) (by decide) (by decide)⟩

/-- Empty starting state for the NICK scenario. -/
def c1St0 : State :=
  { users := [], usersByNick := [], channels := [], writebuffer := [], sid := "999" }

/-- The NICK scenario: introduce `alice` (`001AAAAAA`), burst her into
`#c` with prefix `@`, then process `NICK` renaming her to `bob`. -/
def c1Run : Option State :=
  match sjoinHandler (uidHandler c1St0 wUser) 100 "#c" "+nt" ["@001AAAAAA"] with
  | none => none
  | some st2 => nickHandler st2 "001AAAAAA" "bob"

/-- C1 fails on the code: after NICK, the user's membership for `#c` is
still present and the nickname is `bob`, but the channel's member map has
no entry under `bob` — the stale `alice` key remains, so
`channel.users[user.nickname]` is undefined while
`user.memberships[channel]` is defined.  The NICK handler never re-keys
`channel.users`. -/
theorem nick_breaks_membership_invariant :
    (c1Run.map (fun st =>
      ((jsGet st.users "001AAAAAA").map (fun u =>
        (u.nickname, (jsGet u.memberships "#c").isSome)),
       (jsGet st.channels "#c").map (fun ch =>
        ((jsGet ch.users "bob").isSome, (jsGet ch.users "alice").isSome)))))
     = some (some (("bob", true)), some ((false, true))) := by decide

/-- C9 fails on the code: a chunk that ends exactly at a CRLF delivers an
extra empty line (the trailing empty split segment is not popped before
the delivery loop), so the delivered sequence is not exactly the complete
lines of the stream and even depends on where the chunk boundary falls;
a terminator-straddling split itself is handled correctly. -/
theorem framer_delivers_spurious_empty_line :
    framerRun ["foo\r\n"] = ("", ["foo", ""]) ∧
    (["foo", ""] : List String) ≠ ["foo"] ∧
    framerRun ["fo", "o\r", "\nbar"] = ("bar", ["foo"]) ∧
    framerRun ["foo\r\nbar"] = ("bar", ["foo"]) ∧
    framerRun ["foo\r\n", "bar"] = ("bar", ["foo", ""]) := by decide

theorem stcStep_absent (users : List (String × User)) (c : Channel) (name buf : String)
    (m : Member) (hu : jsGet users m.uid = none) :
    stcStep users c name buf m =
      (some ("User " ++ m.uid ++ " not registered"), users, c, buf) := by
  simp [stcStep, hu]

theorem stcStep_already (users : List (String × User)) (c : Channel) (name buf : String)
    (m : Member) (u : User) (hu : jsGet users m.uid = some u)
    (hm : jsGet u.memberships name = some mm) :
    stcStep users c name buf m =
      (some ("User " ++ m.uid ++ " is already in channel " ++ name), users, c, buf) := by
  simp [stcStep, hu, hm]

theorem stcStep_ok (users : List (String × User)) (c : Channel) (name buf : String)
    (m : Member) (u : User) (hu : jsGet users m.uid = some u)
    (hm : jsGet u.memberships name = none) :
    stcStep users c name buf m =
      (none, jsSet users m.uid ({ u with memberships := jsSet u.memberships name m }),
       { c with users := jsSet c.users u.nickname m }, buf ++ m.pfx ++ m.uid ++ " ") := by
  simp [stcStep, hu, hm]

theorem stcLoop_err_of_absent (name : String) (ms : List Member) :
    ∀ users c buf, (∃ m ∈ ms, jsGet users m.uid = none) →
      (stcLoop users c name buf ms).1.isSome := by
  induction ms with
  | nil =>
    intro users c buf h
    obtain ⟨m, hm, -⟩ := h
    cases hm
  | cons m0 rest ih =>
    intro users c buf h
    obtain ⟨m, hm, hnone⟩ := h
    cases hu : jsGet users m0.uid with
    | none =>
      simp only [stcLoop, stcStep_absent users c name buf m0 hu]
      rfl
    | some u =>
      cases hmm : jsGet u.memberships name with
      | some v =>
        simp only [stcLoop, stcStep_already users c name buf m0 u hu hmm]
        rfl
      | none =>
        simp only [stcLoop, stcStep_ok users c name buf m0 u hu hmm]
        rcases List.mem_cons.mp hm with rfl | hrest
        · rw [hu] at hnone; cases hnone
        · refine ih _ _ _ ⟨m, hrest, ?_⟩
          have hne : m.uid ≠ m0.uid := by
            intro he
            rw [he, hu] at hnone
            cases hnone
          rw [jsGet_jsSet_ne _ _ _ _ hne]
          exact hnone

theorem stcLoop_err_of_already (name : String) (ms : List Member) :
    ∀ users c buf,
      (∃ m ∈ ms, ∃ u, jsGet users m.uid = some u ∧ (jsGet u.memberships name).isSome) →
      (stcLoop users c name buf ms).1.isSome := by
  induction ms with
  | nil =>
    intro users c buf h
    obtain ⟨m, hm, -⟩ := h
    cases hm
  | cons m0 rest ih =>
    intro users c buf h
    obtain ⟨m, hm, u, hsome, hmem⟩ := h
    cases hu : jsGet users m0.uid with
    | none =>
      simp only [stcLoop, stcStep_absent users c name buf m0 hu]
      rfl
    | some u0 =>
      cases hmm : jsGet u0.memberships name with
      | some v =>
        simp only [stcLoop, stcStep_already users c name buf m0 u0 hu hmm]
        rfl
      | none =>
        simp only [stcLoop, stcStep_ok users c name buf m0 u0 hu hmm]
        have hne : m.uid ≠ m0.uid := by
          intro he
          rw [he, hu] at hsome
          obtain rfl : u0 = u := Option.some.inj hsome
          rw [hmm] at hmem
          cases hmem
        have hrest : m ∈ rest := by
          rcases List.mem_cons.mp hm with rfl | hr
          · exact absurd rfl hne
          · exact hr
        refine ih _ _ _ ⟨m, hrest, u, ?_, hmem⟩
        rw [jsGet_jsSet_ne _ _ _ _ hne]
        exact hsome

theorem stcLoop_ok (name : String) (ms : List Member) :
    ∀ users c buf,
      (∀ m ∈ ms, ∃ u, jsGet users m.uid = some u ∧ jsGet u.memberships name = none) →
      (ms.map Member.uid).Nodup →
      (stcLoop users c name buf ms).1 = none := by
  induction ms with
  | nil =>
    intro users c buf h hnd
    rfl
  | cons m0 rest ih =>
    intro users c buf h hnd
    obtain ⟨u0, hu, hmm⟩ := h m0 (List.mem_cons_self _ _)
    simp only [stcLoop, stcStep_ok users c name buf m0 u0 hu hmm]
    rw [List.map_cons, List.nodup_cons] at hnd
    refine ih _ _ _ ?_ hnd.2
    intro m hm
    obtain ⟨u, hu', hmm'⟩ := h m (List.mem_cons_of_mem _ hm)
    have hne : m.uid ≠ m0.uid := by
      intro he
      exact hnd.1 (he ▸ List.mem_map_of_mem Member.uid hm)
    refine ⟨u, ?_, hmm'⟩
    rw [jsGet_jsSet_ne _ _ _ _ hne]
    exact hu'

theorem sjoinToChannel_err_eq (st : State) (now : Int) (channel : Channel)
    (members : List Member) :
    (sjoinToChannel st now channel members).err =
      (stcLoop st.users channel channel.name (stcBuf now channel) members).1 := by
  rcases hl : stcLoop st.users channel channel.name (stcBuf now channel) members
    with ⟨e, u, c, b⟩
  cases e <;> simp [sjoinToChannel, hl]

/-- C8 (amended): `sjoinToChannel` throws whenever some member's UID is
absent from the user store, and whenever some member's UID already has a
membership for the target channel name; when neither holds and the member
UIDs are pairwise distinct it does not throw.  (With a duplicated UID in
the member list the first installation makes the membership check fail
for the second occurrence, so the distinctness proviso is necessary.) -/
theorem sjoinToChannel_member_checks :
    (∀ st now channel members, (∃ m ∈ members, jsGet st.users m.uid = none) →
        ((sjoinToChannel st now channel members : SjoinResult)).err.isSome) ∧
    (∀ st now channel members,
        (∃ m ∈ members, ∃ u, jsGet st.users m.uid = some u ∧
          (jsGet u.memberships channel.name).isSome) →
        ((sjoinToChannel st now channel members : SjoinResult)).err.isSome) ∧
    (∀ st now channel members,
        (∀ m ∈ members, ∃ u, jsGet st.users m.uid = some u ∧
          jsGet u.memberships channel.name = none) →
        ((members.map Member.uid).Nodup) →
        ((sjoinToChannel st now channel members : SjoinResult)).err = none) := by
  refine ⟨?_, ?_, ?_⟩
  · intro st now channel members h
    rw [sjoinToChannel_err_eq]
    exact stcLoop_err_of_absent channel.name members _ _ _ h
  · intro st now channel members h
    rw [sjoinToChannel_err_eq]
    exact stcLoop_err_of_already channel.name members _ _ _ h
  · intro st now channel members h hnd
    rw [sjoinToChannel_err_eq]
    exact stcLoop_ok channel.name members _ _ _ h hnd

/-- Fresh channel argument for the `sjoinToChannel` scenarios. -/
def c8Chan : Channel :=
  { name := "#s", timestamp := 5, modes := "+nt", users := [],
    bans := [], excepts := [], inviteExcepts := [] }

/-- Member argument for the `sjoinToChannel` scenarios. -/
def c8Mem : Member := { uid := "001AAAAAA", pfx := "@" }

/-- C8 counterexample: both occurrences of the duplicated member are
registered and initially not in the channel, yet the call throws — the
first installation adds the membership that makes the check fail for the
second occurrence. -/
theorem sjoinToChannel_member_checks_counterexample :
    (∀ m ∈ [c8Mem, c8Mem], ∃ u, jsGet wState.users m.uid = some u ∧
        jsGet u.memberships c8Chan.name = none) ∧
    (sjoinToChannel wState 100 c8Chan [c8Mem, c8Mem]).err.isSome := by
  constructor
  · intro m hm
    have hm' : m = c8Mem := by
      rcases List.mem_cons.mp hm with rfl | hr
      · rfl
      · rwa [List.mem_singleton] at hr
    subst hm'
    exact ⟨wUser, by decide, by decide⟩
  · decide

/-- Witness for the amended C8 at a concrete distinct member list. -/
theorem sjoinToChannel_member_checks_witness :
    ((∀ m ∈ [c8Mem], ∃ u, jsGet wState.users m.uid = some u ∧
        jsGet u.memberships c8Chan.name = none) ∧
      ([c8Mem].map Member.uid).Nodup) ∧
    (sjoinToChannel wState 100 c8Chan [c8Mem]).err = none := by
  have hgood : ∀ m ∈ [c8Mem], ∃ u, jsGet wState.users m.uid = some u ∧
      jsGet u.memberships c8Chan.name = none := by
    intro m hm
    rw [List.mem_singleton] at hm
    subst hm
    exact ⟨wUser, by decide, by decide⟩
  exact ⟨⟨hgood, by decide⟩,
    sjoinToChannel_member_checks.2.2 wState 100 c8Chan [c8Mem] hgood (by decide)⟩

theorem stcLoop_append (name : String) (xs : List Member) :
    ∀ users c buf u1 c1 b1 ys,
      stcLoop users c name buf xs = (none, u1, c1, b1) →
      stcLoop users c name buf (xs ++ ys) = stcLoop u1 c1 name b1 ys := by
  induction xs with
  | nil =>
    intro users c buf u1 c1 b1 ys h
    simp only [stcLoop, Prod.mk.injEq] at h
    obtain ⟨-, h1, h2, h3⟩ := h
    subst h1; subst h2; subst h3
    simp
  | cons m0 rest ih =>
    intro users c buf u1 c1 b1 ys h
    rw [List.cons_append]
    rcases hstep : stcStep users c name buf m0 with ⟨e, u2, c2, b2⟩
    cases e with
    | some err =>
      rw [stcLoop, hstep] at h
      simp only [Prod.mk.injEq] at h
      cases h.1
    | none =>
      rw [stcLoop, hstep] at h
      rw [stcLoop, hstep]
      exact ih _ _ _ _ _ _ _ h

theorem stcStep_nick_stable (users : List (String × User)) (c : Channel) (name buf : String)
    (m : Member) (u1 : List (String × User)) (c1 : Channel) (b1 : String)
    (h : stcStep users c name buf m = (none, u1, c1, b1)) :
    ∀ k, (jsGet u1 k).map User.nickname = (jsGet users k).map User.nickname := by
  cases hu : jsGet users m.uid with
  | none =>
    rw [stcStep_absent users c name buf m hu] at h
    simp only [Prod.mk.injEq] at h
    cases h.1
  | some u =>
    cases hmm : jsGet u.memberships name with
    | some v =>
      rw [stcStep_already users c name buf m u hu hmm] at h
      simp only [Prod.mk.injEq] at h
      cases h.1
    | none =>
      rw [stcStep_ok users c name buf m u hu hmm] at h
      simp only [Prod.mk.injEq] at h
      obtain ⟨-, h1, -, -⟩ := h
      subst h1
      intro k
      by_cases hk : k = m.uid
      · subst hk
        rw [jsGet_jsSet_self, hu]
        rfl
      · rw [jsGet_jsSet_ne _ _ _ _ hk]

theorem stcLoop_preserves_user_entry (name : String) (ms : List Member) :
    ∀ users c buf u1 c1 b1 k v,
      stcLoop users c name buf ms = (none, u1, c1, b1) →
      jsGet users k = some v → (jsGet v.memberships name).isSome →
      jsGet u1 k = some v := by
  induction ms with
  | nil =>
    intro users c buf u1 c1 b1 k v h hv hvm
    simp only [stcLoop, Prod.mk.injEq] at h
    rw [← h.2.1]
    exact hv
  | cons m0 rest ih =>
    intro users c buf u1 c1 b1 k v h hv hvm
    cases hu : jsGet users m0.uid with
    | none =>
      rw [stcLoop, stcStep_absent users c name buf m0 hu] at h
      simp only [Prod.mk.injEq] at h
      cases h.1
    | some u0 =>
      cases hmm : jsGet u0.memberships name with
      | some w =>
        rw [stcLoop, stcStep_already users c name buf m0 u0 hu hmm] at h
        simp only [Prod.mk.injEq] at h
        cases h.1
      | none =>
        rw [stcLoop, stcStep_ok users c name buf m0 u0 hu hmm] at h
        have hne : k ≠ m0.uid := by
          intro he
          rw [he, hu] at hv
          obtain rfl : u0 = v := Option.some.inj hv
          rw [hmm] at hvm
          cases hvm
        refine ih _ _ _ _ _ _ k v h ?_ hvm
        rw [jsGet_jsSet_ne _ _ _ _ hne]
        exact hv

theorem stcLoop_preserves_chan_key (name : String) (ms : List Member) :
    ∀ users c buf u1 c1 b1 nick mm,
      stcLoop users c name buf ms = (none, u1, c1, b1) →
      jsGet c.users nick = some mm →
      (∀ m ∈ ms, ∀ u, jsGet users m.uid = some u → u.nickname ≠ nick) →
      jsGet c1.users nick = some mm := by
  induction ms with
  | nil =>
    intro users c buf u1 c1 b1 nick mm h hc hnk
    simp only [stcLoop, Prod.mk.injEq] at h
    rw [← h.2.2.1]
    exact hc
  | cons m0 rest ih =>
    intro users c buf u1 c1 b1 nick mm h hc hnk
    cases hu : jsGet users m0.uid with
    | none =>
      rw [stcLoop, stcStep_absent users c name buf m0 hu] at h
      simp only [Prod.mk.injEq] at h
      cases h.1
    | some u0 =>
      cases hmm : jsGet u0.memberships name with
      | some w =>
        rw [stcLoop, stcStep_already users c name buf m0 u0 hu hmm] at h
        simp only [Prod.mk.injEq] at h
        cases h.1
      | none =>
        rw [stcLoop, stcStep_ok users c name buf m0 u0 hu hmm] at h
        have hstab := stcStep_nick_stable users c name buf m0 _ _ _
          (stcStep_ok users c name buf m0 u0 hu hmm)
        refine ih _ _ _ _ _ _ nick mm h ?_ ?_
        · show jsGet (jsSet c.users u0.nickname m0) nick = some mm
          rw [jsGet_jsSet_ne _ _ _ _ (Ne.symm (hnk m0 (List.mem_cons_self _ _) u0 hu))]
          exact hc
        · intro m hm u hu'
          have := hstab m.uid
          rw [hu'] at this
          cases hug : jsGet users m.uid with
          | none => rw [hug] at this; cases this
          | some ug =>
            rw [hug] at this
            have hnickeq : u.nickname = ug.nickname := by simpa using this
            rw [hnickeq]
            exact hnk m (List.mem_cons_of_mem _ hm) ug hug

theorem stcLoop_installs (name : String) (ms : List Member) :
    ∀ users c buf u1 c1 b1,
      stcLoop users c name buf ms = (none, u1, c1, b1) →
      (ms.map (fun m => ((jsGet users m.uid).map User.nickname).getD "")).Nodup →
      ∀ m ∈ ms, ∃ u, jsGet u1 m.uid = some u ∧ jsGet u.memberships name = some m ∧
        jsGet c1.users u.nickname = some m := by
  induction ms with
  | nil =>
    intro users c buf u1 c1 b1 h hnd m hm
    cases hm
  | cons m0 rest ih =>
    intro users c buf u1 c1 b1 h hnd m hm
    cases hu : jsGet users m0.uid with
    | none =>
      rw [stcLoop, stcStep_absent users c name buf m0 hu] at h
      simp only [Prod.mk.injEq] at h
      cases h.1
    | some u0 =>
      cases hmm : jsGet u0.memberships name with
      | some w =>
        rw [stcLoop, stcStep_already users c name buf m0 u0 hu hmm] at h
        simp only [Prod.mk.injEq] at h
        cases h.1
      | none =>
        rw [stcLoop, stcStep_ok users c name buf m0 u0 hu hmm] at h
        rw [List.map_cons, List.nodup_cons] at hnd
        have hstab := stcStep_nick_stable users c name buf m0 _ _ _
          (stcStep_ok users c name buf m0 u0 hu hmm)
        have hmapeq :
            rest.map (fun m => ((jsGet (jsSet users m0.uid ({ u0 with memberships := jsSet u0.memberships name m0 })) m.uid).map User.nickname).getD "")
              = rest.map (fun m => ((jsGet users m.uid).map User.nickname).getD "") := by
          refine List.map_congr_left ?_
          intro a ha
          rw [hstab a.uid]
        rcases List.mem_cons.mp hm with rfl | hrest
        · set u0' : User := { u0 with memberships := jsSet u0.memberships name m } with hu0'
          have hentry : jsGet (jsSet users m.uid u0') m.uid = some u0' :=
            jsGet_jsSet_self _ _ _
          have hmem' : (jsGet u0'.memberships name).isSome := by
            rw [hu0']
            show (jsGet (jsSet u0.memberships name m) name).isSome
            rw [jsGet_jsSet_self]
            rfl
          have hfin := stcLoop_preserves_user_entry name rest _ _ _ _ _ _ m.uid u0'
            h hentry hmem'
          refine ⟨u0', hfin, ?_, ?_⟩
          · rw [hu0']
            show jsGet (jsSet u0.memberships name m) name = some m
            exact jsGet_jsSet_self _ _ _
          · have hchan : jsGet (jsSet c.users u0.nickname m) u0'.nickname = some m := by
              rw [hu0']
              show jsGet (jsSet c.users u0.nickname m) u0.nickname = some m
              exact jsGet_jsSet_self _ _ _
            refine stcLoop_preserves_chan_key name rest _ _ _ _ _ _ u0'.nickname m
              h hchan ?_
            intro m' hm' u' hu' hnick
            apply hnd.1
            have hx := hstab m'.uid
            rw [hu'] at hx
            cases hug : jsGet users m'.uid with
            | none => rw [hug] at hx; cases hx
            | some ug =>
              rw [hug] at hx
              have hne2 : u'.nickname = ug.nickname := by simpa using hx
              have heq : ((jsGet users m.uid).map User.nickname).getD "" =
                  ((jsGet users m'.uid).map User.nickname).getD "" := by
                rw [hu, hug]
                show u0.nickname = ug.nickname
                rw [← hne2, hnick]
              rw [heq]
              exact List.mem_map_of_mem _ hm'
        · have hnd2 := hmapeq.symm ▸ hnd.2
          exact ih _ _ _ _ _ _ h hnd2 m hrest

/-- C10 (amended): when `sjoinToChannel` throws at some member, nothing
is enqueued on the write queue, the channel argument is in the store
(inserted first if it was absent, in which case the store holds the
partially-populated channel object), and the members processed before the
throwing one keep their installed memberships in the users' membership
maps — and in the channel's member map too, provided their users'
nicknames are pairwise distinct (a later member whose user shares a
nickname overwrites the earlier channel-map entry). -/
theorem sjoinToChannel_not_atomic
    (st : State) (now : Int) (channel : Channel) (pre : List Member) (bad : Member)
    (rest : List Member) (u1 : List (String × User)) (c1 : Channel) (b1 : String)
    (hPre : stcLoop st.users channel channel.name (stcBuf now channel) pre = (none, u1, c1, b1))
    (hBad : (stcStep u1 c1 channel.name b1 bad).1.isSome)
    (hNick : (pre.map (fun m => ((jsGet st.users m.uid).map User.nickname).getD "")).Nodup) :
    (sjoinToChannel st now channel (pre ++ bad :: rest)).err.isSome ∧
    (sjoinToChannel st now channel (pre ++ bad :: rest)).state.writebuffer = st.writebuffer ∧
    (jsGet (sjoinToChannel st now channel (pre ++ bad :: rest)).state.channels
      channel.name).isSome ∧
    (jsGet st.channels channel.name = none →
      jsGet (sjoinToChannel st now channel (pre ++ bad :: rest)).state.channels channel.name =
        some (sjoinToChannel st now channel (pre ++ bad :: rest)).chan) ∧
    (sjoinToChannel st now channel (pre ++ bad :: rest)).state.users = u1 ∧
    (sjoinToChannel st now channel (pre ++ bad :: rest)).chan = c1 ∧
    (∀ m ∈ pre, ∃ u, jsGet u1 m.uid = some u ∧
      jsGet u.memberships channel.name = some m ∧ jsGet c1.users u.nickname = some m) := by
  obtain ⟨e, he⟩ : ∃ e, stcStep u1 c1 channel.name b1 bad = (some e, u1, c1, b1) := by
    cases hu : jsGet u1 bad.uid with
    | none => exact ⟨_, stcStep_absent _ _ _ _ _ hu⟩
    | some u =>
      cases hmm : jsGet u.memberships channel.name with
      | some v => exact ⟨_, stcStep_already _ _ _ _ _ u hu hmm⟩
      | none =>
        rw [stcStep_ok _ _ _ _ _ u hu hmm] at hBad
        simp at hBad
  have hfull : stcLoop st.users channel channel.name (stcBuf now channel)
      (pre ++ bad :: rest) = (some e, u1, c1, b1) := by
    rw [stcLoop_append channel.name pre st.users channel (stcBuf now channel)
      u1 c1 b1 (bad :: rest) hPre]
    rw [stcLoop, he]
  simp only [sjoinToChannel, hfull]
  refine ⟨?_, ?_, ?_, ?_, ?_, ?_, ?_⟩
  · trivial
  · trivial
  · cases hg : jsGet st.channels channel.name with
    | none => simp [hg, jsGet_jsSet_self]
    | some chx => simp [hg]
  · intro hnone
    simp [hnone, jsGet_jsSet_self]
  · trivial
  · trivial
  · exact stcLoop_installs channel.name pre _ _ _ _ _ _ hPre hNick

/-- First user sharing the nickname `n`. -/
def c10UA : User :=
  { nickname := "n", hopcount := 0, timestamp := 1, username := "u", hostname := "h",
    uid := "001AAAAAA", servicestamp := "*", usermodes := "+", virtualhost := "v",
    cloakedhost := "c", ip := "i", gecos := "g" }

/-- Second user sharing the nickname `n`. -/
def c10UB : User :=
  { nickname := "n", hopcount := 0, timestamp := 1, username := "u", hostname := "h",
    uid := "002BBBBBB", servicestamp := "*", usermodes := "+", virtualhost := "v",
    cloakedhost := "c", ip := "i", gecos := "g" }

/-- State holding the two same-nickname users. -/
def c10State : State :=
  { users := [("001AAAAAA", c10UA), ("002BBBBBB", c10UB)],
    usersByNick := [("n", "002BBBBBB")], channels := [], writebuffer := [], sid := "999" }

/-- Member for the first same-nickname user. -/
def c10MA : Member := { uid := "001AAAAAA", pfx := "" }

/-- Member for the second same-nickname user. -/
def c10MB : Member := { uid := "002BBBBBB", pfx := "@" }

/-- Member whose UID is unregistered, triggering the throw. -/
def c10Bad : Member := { uid := "003CCCCCC", pfx := "" }

/-- Result of the non-atomicity counterexample run. -/
def c10Res : SjoinResult := sjoinToChannel c10State 100 c8Chan [c10MA, c10MB, c10Bad]

/-- C10 counterexample: the throw happens at the third member; the first
member's user-side membership persists, but because both processed
members' users share the nickname `n` the channel member map holds only
the second member — the first member's value is no longer installed in
the channel's member map, contradicting the claim as stated. -/
theorem sjoinToChannel_not_atomic_counterexample :
    c10Res.err.isSome ∧
    ((jsGet c10Res.state.users "001AAAAAA").map (fun u => jsGet u.memberships "#s")) =
      some (some c10MA) ∧
    c10Res.chan.users = [("n", c10MB)] ∧
    c10MA ≠ c10MB := by decide

/-- Users map after the witness prefix run. -/
def c10Wu : List (String × User) :=
  (stcLoop wState.users c8Chan c8Chan.name (stcBuf 100 c8Chan) [c8Mem]).2.1

/-- Channel after the witness prefix run. -/
def c10Wc : Channel :=
  (stcLoop wState.users c8Chan c8Chan.name (stcBuf 100 c8Chan) [c8Mem]).2.2.1

/-- Wire buffer after the witness prefix run. -/
def c10Wb : String :=
  (stcLoop wState.users c8Chan c8Chan.name (stcBuf 100 c8Chan) [c8Mem]).2.2.2

/-- Unregistered member for the witness run. -/
def c10WBad : Member := { uid := "004DDDDDD", pfx := "" }

/-- Witness for the amended C10 at a concrete throwing call. -/
theorem sjoinToChannel_not_atomic_witness :
    (stcLoop wState.users c8Chan c8Chan.name (stcBuf 100 c8Chan) [c8Mem] =
        (none, c10Wu, c10Wc, c10Wb) ∧
      (stcStep c10Wu c10Wc c8Chan.name c10Wb c10WBad).1.isSome ∧
      ([c8Mem].map (fun m => ((jsGet wState.users m.uid).map User.nickname).getD "")).Nodup) ∧
    ((sjoinToChannel wState 100 c8Chan ([c8Mem] ++ c10WBad :: [])).err.isSome ∧
      (sjoinToChannel wState 100 c8Chan ([c8Mem] ++ c10WBad :: [])).state.writebuffer =
        wState.writebuffer ∧
      (jsGet (sjoinToChannel wState 100 c8Chan ([c8Mem] ++ c10WBad :: [])).state.channels
        c8Chan.name).isSome ∧
      (jsGet wState.channels c8Chan.name = none →
        jsGet (sjoinToChannel wState 100 c8Chan ([c8Mem] ++ c10WBad :: [])).state.channels
          c8Chan.name = some (sjoinToChannel wState 100 c8Chan ([c8Mem] ++ c10WBad :: [])).chan) ∧
      (sjoinToChannel wState 100 c8Chan ([c8Mem] ++ c10WBad :: [])).state.users = c10Wu ∧
      (sjoinToChannel wState 100 c8Chan ([c8Mem] ++ c10WBad :: [])).chan = c10Wc ∧
      (∀ m ∈ [c8Mem], ∃ u, jsGet c10Wu m.uid = some u ∧
        jsGet u.memberships c8Chan.name = some m ∧ jsGet c10Wc.users u.nickname = some m)) :=
  ⟨⟨by decide, by decide, by decide⟩,
   sjoinToChannel_not_atomic wState 100 c8Chan [c8Mem] c10WBad [] c10Wu c10Wc c10Wb
     (by decide) (by decide) (by decide)⟩

end S2S
